import Mathlib

/-!
Verification of the FlatBuffers Python core runtime (builder.py, table.py,
number_types.py) against its natural-language specification.

The embedding below translates the source modules into Lean:
bytes are lists of natural numbers (each intended to lie below 256), the
mutable Builder object becomes a record threaded through explicit state
passing, and every fallible entry point returns an Except value whose
error constructor names the exception class raised by the source.
-/

namespace FlatBuffers

/-- Modelled from the spec: the byte codec module (encode.Get together with
the packer structs) is not part of the provided sources; spec section 4.2
describes it as a little-endian read of byte-width bytes at a byte index.
encodeGet w buf i reads w little-endian bytes starting at index i. -/
def encodeGet : Nat → List Nat → Nat → Nat
  | 0, _, _ => 0
  | w + 1, buf, i => buf.getD i 0 + 256 * encodeGet w buf (i + 1)

/-- Modelled from the spec: the byte codec module (encode.Write together
with the packer structs) is not part of the provided sources; spec section
4.2 describes it as a little-endian write of byte-width bytes at a byte
index.  encodeWrite w buf i v writes the w little-endian bytes of v. -/
def encodeWrite : Nat → List Nat → Nat → Nat → List Nat
  | 0, buf, _, _ => buf
  | w + 1, buf, i, v => encodeWrite w (buf.set i (v % 256)) (i + 1) (v / 256)

/-- Modelled from the spec: writing a possibly signed scalar stores its
two's-complement bit pattern, i.e. the value reduced modulo 2^(8w). -/
def encodeWriteInt (w : Nat) (buf : List Nat) (i : Nat) (v : Int) : List Nat :=
  encodeWrite w buf i (v % ((2 : Int) ^ (8 * w))).toNat

/-- Modelled from the spec: reading a 4-byte SOffset decodes the stored
little-endian bytes as a two's-complement signed 32-bit value. -/
def readSOffset (buf : List Nat) (i : Nat) : Int :=
  let n := encodeGet 4 buf i
  if n < 2 ^ 31 then (n : Int) else (n : Int) - 2 ^ 32

/-- number_types.TypeFlags: byte width, inclusive range, and (standing in
for the packer_type field) whether the codec treats the kind as signed.
The two floating-point kinds are beyond the scope of this embedding. -/
structure TypeFlags where
  bytewidth : Nat
  min_val : Int
  max_val : Int
  signed : Bool
deriving DecidableEq

def BoolFlags : TypeFlags := ⟨1, 0, 1, false⟩

def Uint8Flags : TypeFlags := ⟨1, 0, 2 ^ 8 - 1, false⟩

def Uint16Flags : TypeFlags := ⟨2, 0, 2 ^ 16 - 1, false⟩

def Uint32Flags : TypeFlags := ⟨4, 0, 2 ^ 32 - 1, false⟩

def Uint64Flags : TypeFlags := ⟨8, 0, 2 ^ 64 - 1, false⟩

def Int8Flags : TypeFlags := ⟨1, -(2 ^ 7), 2 ^ 7 - 1, true⟩

def Int16Flags : TypeFlags := ⟨2, -(2 ^ 15), 2 ^ 15 - 1, true⟩

def Int32Flags : TypeFlags := ⟨4, -(2 ^ 31), 2 ^ 31 - 1, true⟩

def Int64Flags : TypeFlags := ⟨8, -(2 ^ 63), 2 ^ 63 - 1, true⟩

def SOffsetTFlags : TypeFlags := Int32Flags

def UOffsetTFlags : TypeFlags := Uint32Flags

def VOffsetTFlags : TypeFlags := Uint16Flags

/-- number_types.TypeFlags.valid_number for the integer kinds. -/
def TypeFlags.valid_number (f : TypeFlags) (n : Int) : Bool :=
  f.min_val ≤ n && n ≤ f.max_val

/-- The exception classes of the exceptions module (declared but not under
the provided sources; each operation below raises exactly the class named
by the source of builder.py and table.py). -/
inductive Err where
  | builderSize
  | offsetArithmetic
  | notInObject
  | objectIsNested
  | structIsNotInline
  | typeError
deriving DecidableEq

/-- builder.VtableMetadataFields. -/
def VtableMetadataFields : Nat := 2

/-- builder.Builder: the internal state named by the slots of the class. -/
structure Builder where
  Bytes : List Nat
  current_vtable : Option (List Nat)
  head : Nat
  minalign : Nat
  objectEnd : Option Nat
  vtables : List Nat
deriving DecidableEq

/-- Builder.MAX_BUFFER_SIZE. -/
def MAX_BUFFER_SIZE : Nat := 2 ^ 31

/-- Builder.__init__. -/
def Builder.init (initialSize : Int) : Except Err Builder :=
  if 0 ≤ initialSize ∧ initialSize ≤ (MAX_BUFFER_SIZE : Int) then
    Except.ok
      { Bytes := List.replicate initialSize.toNat 0
        current_vtable := none
        head := initialSize.toNat
        minalign := 1
        objectEnd := none
        vtables := [] }
  else Except.error Err.builderSize

/-- Builder.Output. -/
def Builder.Output (b : Builder) : List Nat :=
  b.Bytes.drop b.head

/-- Builder.Reset. -/
def Builder.Reset (b : Builder) : Builder :=
  { b with
    vtables := []
    current_vtable := none
    head := b.Bytes.length
    minalign := 1
    objectEnd := none }

/-- Builder.Offset. -/
def Builder.Offset (b : Builder) : Nat :=
  b.Bytes.length - b.head

/-- Builder.Head. -/
def Builder.Head (b : Builder) : Nat :=
  b.head

/-- Builder.growByteBuffer.  The new zero bytes are placed in front and the
old content keeps its position measured from the tail. -/
def Builder.growByteBuffer (b : Builder) (freeSize : Nat) : Except Err Builder :=
  let oldSize := b.Bytes.length
  let newSize := max 1024 (max (oldSize * 2) (oldSize + freeSize - b.head))
  if MAX_BUFFER_SIZE ≤ newSize then Except.error Err.builderSize
  else
    Except.ok
      { b with
        Bytes := List.replicate (newSize - oldSize) 0 ++ b.Bytes
        head := b.head + (newSize - oldSize) }

/-- Builder.Pad: places n zero bytes directly below head. -/
def Builder.Pad (b : Builder) (n : Nat) : Builder :=
  { b with Bytes := encodeWrite n b.Bytes (b.head - n) 0, head := b.head - n }

/-- Builder.Prep.  The source computes the alignment padding with the
two's-complement bitmask (~(L - head + additionalBytes) + 1) & (size - 1),
which for a power-of-two size equals the Euclidean remainder
(-(L - head + additionalBytes)) mod size used here
(lemma prepAlignSize_eq_two_pow_mask below). -/
def prepAlignSize (size n : Nat) : Nat :=
  ((-(n : Int)) % (size : Int)).toNat

def Builder.Prep (b : Builder) (size additionalBytes : Nat) : Except Err Builder :=
  let b := { b with minalign := if b.minalign < size then size else b.minalign }
  let alignSize := prepAlignSize size (b.Bytes.length - b.head + additionalBytes)
  let totalSize := alignSize + size + additionalBytes
  if b.head < totalSize then
    match b.growByteBuffer totalSize with
    | Except.error e => Except.error e
    | Except.ok b2 => Except.ok { b2 with head := b2.head - alignSize }
  else Except.ok { b with head := b.head - alignSize }

/-- Builder.Place: writes the scalar below head without any space check. -/
def Builder.Place (b : Builder) (x : Int) (flags : TypeFlags) : Builder :=
  { b with
    Bytes := encodeWriteInt flags.bytewidth b.Bytes (b.head - flags.bytewidth) x
    head := b.head - flags.bytewidth }

/-- Builder.PrependSOffsetTRelative. -/
def Builder.PrependSOffsetTRelative (b : Builder) (off : Int) : Except Err Builder :=
  match b.Prep SOffsetTFlags.bytewidth 0 with
  | Except.error e => Except.error e
  | Except.ok b =>
    let off2 : Int := (b.Offset : Int) - off
    if off2 < 0 then Except.error Err.offsetArithmetic
    else Except.ok (b.Place (off2 + SOffsetTFlags.bytewidth) SOffsetTFlags)

/-- Builder.PrependUOffsetTRelative. -/
def Builder.PrependUOffsetTRelative (b : Builder) (off : Int) : Except Err Builder :=
  match b.Prep UOffsetTFlags.bytewidth 0 with
  | Except.error e => Except.error e
  | Except.ok b =>
    let off2 : Int := (b.Offset : Int) - off
    if off2 < 0 then Except.error Err.offsetArithmetic
    else Except.ok (b.Place (off2 + UOffsetTFlags.bytewidth) UOffsetTFlags)

/-- Builder.assertNotNested. -/
def Builder.assertNotNested (b : Builder) : Except Err Unit :=
  if b.current_vtable.isSome then Except.error Err.objectIsNested
  else Except.ok ()

/-- Builder.StartObject. -/
def Builder.StartObject (b : Builder) (numfields : Nat) : Except Err Builder :=
  match b.assertNotNested with
  | Except.error e => Except.error e
  | Except.ok _ =>
    Except.ok
      { b with
        current_vtable := some (List.replicate numfields 0)
        objectEnd := some b.Offset
        minalign := 1 }

/-- Builder.Slot. -/
def Builder.Slot (b : Builder) (slotnum : Nat) : Except Err Builder :=
  match b.current_vtable with
  | none => Except.error Err.notInObject
  | some cv => Except.ok { b with current_vtable := some (cv.set slotnum b.Offset) }

/-- Builder.Prepend. -/
def Builder.Prepend (b : Builder) (flags : TypeFlags) (off : Int) : Except Err Builder :=
  match b.Prep flags.bytewidth 0 with
  | Except.error e => Except.error e
  | Except.ok b => Except.ok (b.Place off flags)

/-- Builder.PrependVOffsetT. -/
def Builder.PrependVOffsetT (b : Builder) (x : Int) : Except Err Builder :=
  b.Prepend VOffsetTFlags x

/-- Builder.PrependSlot: the generic slot variant shared by the two-byte
and wider integer kinds (the one-byte kinds inline the same structure). -/
def Builder.PrependSlot (b : Builder) (flags : TypeFlags) (o : Nat) (x d : Int) :
    Except Err Builder :=
  if x ≠ d then
    match b.Prepend flags x with
    | Except.error e => Except.error e
    | Except.ok b => b.Slot o
  else Except.ok b

/-- Builder.PrependUint8: Prep then the unchecked one-byte PlaceUint8. -/
def Builder.PrependUint8 (b : Builder) (x : Nat) : Except Err Builder :=
  match b.Prep Uint8Flags.bytewidth 0 with
  | Except.error e => Except.error e
  | Except.ok b =>
    Except.ok { b with Bytes := b.Bytes.set (b.head - 1) x, head := b.head - 1 }

/-- builder.vtableEqual: compares the unwritten vtable a (at prospective
object offset objectStart) against the raw byte region b of a written
vtable, skipping entries defaulted on both sides. -/
def vtableEqual (a : List Nat) (objectStart : Nat) (b : List Nat) : Bool :=
  if a.length * VOffsetTFlags.bytewidth ≠ b.length then false
  else
    (List.range a.length).all fun i =>
      let x := encodeGet 2 b (i * VOffsetTFlags.bytewidth)
      let elem := a.getD i 0
      if x = 0 ∧ elem = 0 then true
      else decide ((x : Int) = (objectStart : Int) - (elem : Int))

/-- The reverse-order linear search of Builder.WriteVtable over the list
of previously written vtable offsets (passed here already reversed, newest
first, exactly as the source iterates reversed(self.vtables)). -/
def findExistingVtable (bytes : List Nat) (cv : List Nat) (objectOffset : Nat) :
    List Nat → Option Nat
  | [] => none
  | vt2Offset :: rest =>
    let vt2Start := bytes.length - vt2Offset
    let vt2Len := encodeGet 2 bytes vt2Start
    let metadata := VtableMetadataFields * VOffsetTFlags.bytewidth
    let vt2 := (bytes.drop (vt2Start + metadata)).take (vt2Len - metadata)
    if vtableEqual cv objectOffset vt2 then some vt2Offset
    else findExistingVtable bytes cv objectOffset rest

/-- The loop of Builder.WriteVtable that emits the per-field entries of
current_vtable in reverse order (entries is the already reversed list). -/
def Builder.writeVtableFields (b : Builder) (entries : List Nat) (objectOffset : Nat) :
    Except Err Builder :=
  match entries with
  | [] => Except.ok b
  | off :: rest =>
    let v : Int := if off ≠ 0 then (objectOffset : Int) - (off : Int) else (off : Int)
    match b.PrependVOffsetT v with
    | Except.error e => Except.error e
    | Except.ok b => b.writeVtableFields rest objectOffset

/-- Builder.WriteVtable. -/
def Builder.WriteVtable (b : Builder) : Except Err (Builder × Nat) :=
  match b.PrependSOffsetTRelative 0 with
  | Except.error e => Except.error e
  | Except.ok b =>
    let objectOffset := b.Offset
    let cv := b.current_vtable.getD []
    match findExistingVtable b.Bytes cv objectOffset b.vtables.reverse with
    | none =>
      match b.writeVtableFields cv.reverse objectOffset with
      | Except.error e => Except.error e
      | Except.ok b =>
        match b.PrependVOffsetT ((objectOffset : Int) - (b.objectEnd.getD 0 : Int)) with
        | Except.error e => Except.error e
        | Except.ok b =>
          let vBytes := (cv.length + VtableMetadataFields) * VOffsetTFlags.bytewidth
          match b.PrependVOffsetT (vBytes : Int) with
          | Except.error e => Except.error e
          | Except.ok b =>
            let b :=
              { b with
                Bytes :=
                  encodeWriteInt 4 b.Bytes (b.Bytes.length - objectOffset)
                    ((b.Offset : Int) - (objectOffset : Int)) }
            let b := { b with vtables := b.vtables ++ [b.Offset] }
            Except.ok ({ b with current_vtable := none }, objectOffset)
    | some existingVtable =>
      let b := { b with head := b.Bytes.length - objectOffset }
      let b :=
        { b with
          Bytes :=
            encodeWriteInt 4 b.Bytes b.head
              ((existingVtable : Int) - (objectOffset : Int)) }
      Except.ok ({ b with current_vtable := none }, objectOffset)

/-- Builder.EndObject. -/
def Builder.EndObject (b : Builder) : Except Err (Builder × Nat) :=
  if b.current_vtable.isNone then Except.error Err.notInObject
  else b.WriteVtable

/-- Builder.StartVector. -/
def Builder.StartVector (b : Builder) (elemSize numElems alignment : Nat) :
    Except Err (Builder × Nat) :=
  match b.assertNotNested with
  | Except.error e => Except.error e
  | Except.ok _ =>
    match b.Prep Uint32Flags.bytewidth (elemSize * numElems) with
    | Except.error e => Except.error e
    | Except.ok b =>
      match b.Prep alignment (elemSize * numElems) with
      | Except.error e => Except.error e
      | Except.ok b => Except.ok (b, b.Offset)

/-- Builder.EndVector. -/
def Builder.EndVector (b : Builder) (vectorNumElems : Nat) : Builder × Nat :=
  let b := b.Place (vectorNumElems : Int) UOffsetTFlags
  (b, b.Offset)

/-- Copying a byte payload into the buffer starting at index i, modelling
the slice assignment self.Bytes[head : head + l] = x. -/
def writeBytes (bs : List Nat) (i : Nat) : List Nat → List Nat
  | [] => bs
  | c :: rest => writeBytes (bs.set i c) (i + 1) rest

/-- Builder.CreateString for a byte-sequence argument (the str branch of
the source first encodes to bytes; the non-string branch raises). -/
def Builder.CreateString (b : Builder) (s : List Nat) : Except Err (Builder × Nat) :=
  match b.assertNotNested with
  | Except.error e => Except.error e
  | Except.ok _ =>
    let l := s.length
    match b.Prep UOffsetTFlags.bytewidth (l + 1) with
    | Except.error e => Except.error e
    | Except.ok b =>
      let b := b.Pad 1
      let b := { b with head := b.head - l, Bytes := writeBytes b.Bytes (b.head - l) s }
      Except.ok (b.EndVector l)

/-- Builder.Finish. -/
def Builder.Finish (b : Builder) (rootTable : Nat) : Except Err (Builder × Nat) :=
  match b.Prep b.minalign UOffsetTFlags.bytewidth with
  | Except.error e => Except.error e
  | Except.ok b =>
    match b.PrependUOffsetTRelative (rootTable : Int) with
    | Except.error e => Except.error e
    | Except.ok b => Except.ok (b, b.head)

/-- table.Table: a read-only view over a byte buffer rooted at Pos. -/
structure Table where
  Bytes : List Nat
  Pos : Nat
deriving DecidableEq

/-- Table.__init__: UOffsetTFlags.enforce_number(pos) raises TypeError
outside the unsigned 32-bit range, then the fields are stored. -/
def Table.init (buf : List Nat) (pos : Int) : Except Err Table :=
  if UOffsetTFlags.min_val ≤ pos ∧ pos ≤ UOffsetTFlags.max_val then
    Except.ok { Bytes := buf, Pos := pos.toNat }
  else Except.error Err.typeError

/-- Table.GetRoot. -/
def Table.GetRoot (buf : List Nat) (offset : Nat) : Except Err Table :=
  let n := encodeGet 4 buf offset
  Table.init buf ((n : Int) + (offset : Int))

/-- Table.Get: reads a scalar of the given kind at Pos + off, decoding
signed kinds from their stored two's-complement bit pattern. -/
def Table.Get (t : Table) (flags : TypeFlags) (off : Nat) : Int :=
  let n := encodeGet flags.bytewidth t.Bytes (off + t.Pos)
  if flags.signed ∧ 2 ^ (8 * flags.bytewidth - 1) ≤ n then
    (n : Int) - 2 ^ (8 * flags.bytewidth)
  else (n : Int)

/-- Table.Offset: the vtable lookup with the deprecated-field length
check. -/
def Table.Offset (t : Table) (vtableOffset : Nat) : Nat :=
  let vtable := ((t.Pos : Int) - readSOffset t.Bytes t.Pos).toNat
  let vtableEnd := encodeGet 2 t.Bytes vtable
  if vtableOffset < vtableEnd then encodeGet 2 t.Bytes (vtable + vtableOffset)
  else 0

/-- Table.Indirect. -/
def Table.Indirect (t : Table) (off : Nat) : Nat :=
  off + encodeGet 4 t.Bytes (off + t.Pos)

/-- Table.String. -/
def Table.String (t : Table) (off : Nat) : List Nat :=
  let off := off + encodeGet 4 t.Bytes (off + t.Pos)
  let length := encodeGet 4 t.Bytes (off + t.Pos)
  let start := t.Pos + off + UOffsetTFlags.bytewidth
  (t.Bytes.drop start).take length

/-- Table.VectorLen. -/
def Table.VectorLen (t : Table) (off : Nat) : Nat :=
  let off := off + encodeGet 4 t.Bytes (off + t.Pos)
  encodeGet 4 t.Bytes (off + t.Pos)

/-- Table.Vector. -/
def Table.Vector (t : Table) (off : Nat) : Nat :=
  let x := off + encodeGet 4 t.Bytes (off + t.Pos)
  x + UOffsetTFlags.bytewidth

/-- Table.GetSlot. -/
def Table.GetSlot (t : Table) (flags : TypeFlags) (slot : Nat) (d : Int) : Int :=
  let off := t.Offset slot
  if off = 0 then d else t.Get flags off

/-- The byte stored at distance t from the tail of the buffer (the
Offset-from-tail addressing of the spec). -/
def Builder.tailByte (b : Builder) (t : Nat) : Nat :=
  b.Bytes.getD (b.Bytes.length - t) 0

/-! Lemmas about the byte codec. -/

theorem encodeWrite_length (w : Nat) :
    ∀ bs i v, (encodeWrite w bs i v).length = bs.length := by
  induction w with
  | zero => intro bs i v; rfl
  | succ w ih => intro bs i v; simp [encodeWrite, ih]

theorem getD_encodeWrite_outside (w : Nat) :
    ∀ bs i v j, (j < i ∨ i + w ≤ j) →
      (encodeWrite w bs i v).getD j 0 = bs.getD j 0 := by
  induction w with
  | zero => intro bs i v j _; rfl
  | succ w ih =>
    intro bs i v j hj
    have hji : i ≠ j := by omega
    rw [encodeWrite, ih _ _ _ _ (by omega)]
    simp [List.getD, List.getElem?_set_ne hji]

theorem getD_set_self (bs : List Nat) (i a : Nat) (h : i < bs.length) :
    (bs.set i a).getD i 0 = a := by
  simp [List.getD, List.getElem?_set_self, h]

theorem encodeGet_encodeWrite (w : Nat) :
    ∀ bs i v, i + w ≤ bs.length →
      encodeGet w (encodeWrite w bs i v) i = v % 2 ^ (8 * w) := by
  induction w with
  | zero => intro bs i v _; simp [encodeGet, encodeWrite, Nat.mod_one]
  | succ w ih =>
    intro bs i v h
    have hlen : i < bs.length := by omega
    have hset : ((bs.set i (v % 256)).length) = bs.length := by simp
    rw [encodeWrite, encodeGet,
      getD_encodeWrite_outside _ _ _ _ _ (Or.inl (by omega)),
      getD_set_self _ _ _ hlen,
      ih _ _ _ (by omega)]
    have h8 : 2 ^ (8 * (w + 1)) = 256 * 2 ^ (8 * w) := by
      rw [Nat.mul_succ, pow_add]; ring
    rw [h8, Nat.mod_mul]

theorem encodeGet_congr (w : Nat) :
    ∀ (bs bs2 : List Nat) i j, (∀ k, k < w → bs.getD (i + k) 0 = bs2.getD (j + k) 0) →
      encodeGet w bs i = encodeGet w bs2 j := by
  induction w with
  | zero => intro bs bs2 i j _; rfl
  | succ w ih =>
    intro bs bs2 i j h
    have h0 := h 0 (by omega)
    simp only [Nat.add_zero] at h0
    rw [encodeGet, encodeGet, h0, ih bs bs2 (i + 1) (j + 1)]
    intro k hk
    have := h (k + 1) (by omega)
    rw [show i + (k + 1) = i + 1 + k by omega, show j + (k + 1) = j + 1 + k by omega] at this
    exact this

theorem encodeGet_encodeWrite_disjoint (wr w : Nat) (bs : List Nat) (i v j : Nat)
    (h : j + wr ≤ i ∨ i + w ≤ j) :
    encodeGet wr (encodeWrite w bs i v) j = encodeGet wr bs j := by
  refine encodeGet_congr wr _ _ j j ?_
  intro k hk
  exact getD_encodeWrite_outside w bs i v (j + k) (by omega)

theorem writeBytes_length (s : List Nat) :
    ∀ bs i, (writeBytes bs i s).length = bs.length := by
  induction s with
  | nil => intro bs i; rfl
  | cons c rest ih => intro bs i; simp [writeBytes, ih]

theorem getD_writeBytes_outside (s : List Nat) :
    ∀ bs i j, (j < i ∨ i + s.length ≤ j) →
      (writeBytes bs i s).getD j 0 = bs.getD j 0 := by
  induction s with
  | nil => intro bs i j _; rfl
  | cons c rest ih =>
    intro bs i j hj
    simp only [List.length_cons] at hj
    have hji : i ≠ j := by omega
    rw [writeBytes, ih _ _ _ (by omega)]
    simp [List.getD, List.getElem?_set_ne hji]

theorem getD_writeBytes (s : List Nat) :
    ∀ bs i j, j < s.length → i + s.length ≤ bs.length →
      (writeBytes bs i s).getD (i + j) 0 = s.getD j 0 := by
  induction s with
  | nil => intro bs i j h _; simp at h
  | cons c rest ih =>
    intro bs i j hj hlen
    simp only [List.length_cons] at hj hlen
    match j with
    | 0 =>
      rw [writeBytes, getD_writeBytes_outside rest _ _ _ (Or.inl (by omega))]
      rw [Nat.add_zero, getD_set_self _ _ _ (by omega)]
      rfl
    | j + 1 =>
      rw [writeBytes, show i + (j + 1) = (i + 1) + j by omega,
        ih _ _ _ (by omega) (by rw [List.length_set]; omega)]
      rfl

theorem emod_toNat_lt (v : Int) (M : Nat) (hM : 0 < M) :
    (v % (M : Int)).toNat < M := by
  have h1 : 0 ≤ v % (M : Int) := Int.emod_nonneg v (by exact_mod_cast hM.ne')
  have h2 : v % (M : Int) < (M : Int) := Int.emod_lt_of_pos v (by exact_mod_cast hM)
  omega

theorem encodeGet_encodeWriteInt (w : Nat) (bs : List Nat) (i : Nat) (v : Int)
    (h : i + w ≤ bs.length) :
    encodeGet w (encodeWriteInt w bs i v) i = (v % ((2 : Int) ^ (8 * w))).toNat := by
  have hM : 0 < 2 ^ (8 * w) := Nat.pos_pow_of_pos _ (by omega)
  have hcast : ((2 : Int) ^ (8 * w)) = ((2 ^ (8 * w) : Nat) : Int) := by push_cast; ring
  rw [encodeWriteInt, encodeGet_encodeWrite _ _ _ _ h, Nat.mod_eq_of_lt]
  rw [hcast]
  exact emod_toNat_lt _ _ hM

theorem encodeWriteInt_length (w : Nat) (bs : List Nat) (i : Nat) (v : Int) :
    (encodeWriteInt w bs i v).length = bs.length :=
  encodeWrite_length _ _ _ _

theorem readSOffset_encodeWriteInt (bs : List Nat) (i : Nat) (v : Int)
    (h : i + 4 ≤ bs.length) (h1 : -(2 ^ 31) ≤ v) (h2 : v < 2 ^ 31) :
    readSOffset (encodeWriteInt 4 bs i v) i = v := by
  rw [readSOffset, encodeGet_encodeWriteInt 4 bs i v h]
  have hM : ((2 : Int) ^ (8 * 4)) = (2 : Int) ^ 32 := by norm_num
  rw [hM]
  rcases le_or_lt 0 v with hv | hv
  · rw [Int.emod_eq_of_lt hv (by omega)]
    have hlt : v.toNat < 2 ^ 31 := by omega
    rw [if_pos hlt]
    omega
  · have hmod : v % (2 : Int) ^ 32 = v + 2 ^ 32 := by
      have h0 : (v + 2 ^ 32 * 1) % 2 ^ 32 = v % 2 ^ 32 :=
        Int.add_mul_emod_self_left v (2 ^ 32) 1
      have h1 : (v + 2 ^ 32 * 1 : Int) = v + 2 ^ 32 := by ring
      rw [h1] at h0
      rw [← h0]
      exact Int.emod_eq_of_lt (by omega) (by omega)
    rw [hmod]
    have hge : ¬ ((v + 2 ^ 32 : Int).toNat < 2 ^ 31) := by omega
    rw [if_neg hge]
    omega

/-! Lemmas about prepAlignSize, growByteBuffer, Prep and Place. -/

theorem prepAlignSize_nonneg_emod (size n : Nat) (hs : 0 < size) :
    0 ≤ (-(n : Int)) % (size : Int) :=
  Int.emod_nonneg _ (by exact_mod_cast hs.ne')

theorem prepAlignSize_lt (size n : Nat) (hs : 0 < size) :
    prepAlignSize size n < size :=
  emod_toNat_lt _ _ hs

/-- The padding restores size-alignment of the write position. -/
theorem prepAlignSize_add_mod (size n : Nat) (hs : 0 < size) :
    (n + prepAlignSize size n) % size = 0 := by
  have hr0 := prepAlignSize_nonneg_emod size n hs
  have hd := Int.emod_add_ediv (-(n : Int)) (size : Int)
  have hsum : (n : Int) + (-(n : Int)) % (size : Int) =
      (size : Int) * (-((-(n : Int)) / (size : Int))) := by linarith
  have key : ((n : Int) + (-(n : Int)) % (size : Int)) % (size : Int) = 0 := by
    rw [hsum]; exact Int.mul_emod_right _ _
  have hcast : ((n + prepAlignSize size n : Nat) : Int) =
      (n : Int) + (-(n : Int)) % (size : Int) := by
    rw [prepAlignSize]; push_cast [Int.toNat_of_nonneg hr0]; ring
  have hdvd : (size : Int) ∣ ((n + prepAlignSize size n : Nat) : Int) := by
    rw [hcast, hsum]; exact Dvd.intro _ rfl
  exact Nat.dvd_iff_mod_eq_zero.mp (by exact_mod_cast hdvd)

/-- For a power-of-two size the Euclidean remainder used in the embedding
of Prep coincides with the two's-complement bitmask computation of the
source, here rendered over natural numbers. -/
theorem prepAlignSize_eq_two_pow_mask (k n : Nat) :
    prepAlignSize (2 ^ k) n = (2 ^ k - n % 2 ^ k) &&& (2 ^ k - 1) := by
  have hs : 0 < 2 ^ k := Nat.pos_pow_of_pos _ (by omega)
  rw [Nat.and_pow_two_sub_one_eq_mod, prepAlignSize]
  set m := 2 ^ k with hm
  set R := (m - n % m) % m with hR
  have hRlt : R < m := Nat.mod_lt _ hs
  have hdvdNat : m ∣ n + R := by
    have hdm := Nat.div_add_mod n m
    rcases Nat.eq_zero_or_pos (n % m) with h0 | hpos
    · refine ⟨n / m, ?_⟩
      have : R = 0 := by rw [hR, h0, Nat.sub_zero, Nat.mod_self]
      omega
    · have hrm : n % m < m := Nat.mod_lt _ hs
      have hRe : R = m - n % m := by
        rw [hR]; exact Nat.mod_eq_of_lt (by omega)
      exact ⟨n / m + 1, by rw [hRe]; rw [Nat.mul_add]; omega⟩
  have h1 : (-(n : Int)) % (m : Int) = ((R : Nat) : Int) % (m : Int) := by
    rw [Int.emod_eq_emod_iff_emod_sub_eq_zero]
    have heq : (-(n : Int)) - (R : Int) = -(((n + R : Nat) : Int)) := by
      push_cast; ring
    rw [heq]
    have : ((m : Nat) : Int) ∣ (((n + R : Nat) : Int)) := Int.natCast_dvd_natCast.mpr hdvdNat
    exact Int.emod_eq_zero_of_dvd (Int.dvd_neg.mpr this)
  have h2 : ((R : Nat) : Int) % (m : Int) = (R : Int) :=
    Int.emod_eq_of_lt (by positivity) (by exact_mod_cast hRlt)
  rw [h1, h2, Int.toNat_natCast]

theorem getD_append_right (l1 l2 : List Nat) (j : Nat) :
    (l1 ++ l2).getD (l1.length + j) 0 = l2.getD j 0 := by
  simp [List.getD, List.getElem?_append_right]

theorem getD_drop (l : List Nat) (a j : Nat) :
    (l.drop a).getD j 0 = l.getD (a + j) 0 := by
  simp [List.getD, List.getElem?_drop]

theorem getD_take (l : List Nat) (m j : Nat) (h : j < m) :
    (l.take m).getD j 0 = l.getD j 0 := by
  simp [List.getD, List.getElem?_take, h]

theorem getD_eq_getElem (l : List Nat) (j : Nat) (h : j < l.length) :
    l.getD j 0 = l[j] := by
  simp [List.getD, List.getElem?_eq_getElem h]

/-- When the write position is already aligned no padding is needed. -/
theorem prepAlignSize_of_mod_eq_zero (size n : Nat) (hn : n % size = 0) :
    prepAlignSize size n = 0 := by
  rw [prepAlignSize]
  have hdvd : ((size : Nat) : Int) ∣ (-(n : Int)) :=
    Int.dvd_neg.mpr (Int.natCast_dvd_natCast.mpr (Nat.dvd_of_mod_eq_zero hn))
  rw [Int.emod_eq_zero_of_dvd hdvd]
  rfl

/-- Effect of a successful growByteBuffer call: the new size, the size
bound, the head adjustment, and the stability of all bytes addressed from
the tail. -/
theorem growByteBuffer_ok (b b2 : Builder) (freeSize : Nat)
    (h : b.growByteBuffer freeSize = Except.ok b2) :
    b2.Bytes.length =
      max 1024 (max (b.Bytes.length * 2) (b.Bytes.length + freeSize - b.head)) ∧
    b2.Bytes.length < MAX_BUFFER_SIZE ∧
    b.Bytes.length ≤ b2.Bytes.length ∧
    b2.head = b.head + (b2.Bytes.length - b.Bytes.length) ∧
    b2.current_vtable = b.current_vtable ∧
    b2.minalign = b.minalign ∧
    b2.objectEnd = b.objectEnd ∧
    b2.vtables = b.vtables ∧
    (∀ t, 1 ≤ t → t ≤ b.Bytes.length → b2.tailByte t = b.tailByte t) := by
  rw [Builder.growByteBuffer] at h
  set L := b.Bytes.length with hL
  set newSize := max 1024 (max (L * 2) (L + freeSize - b.head)) with hN
  have hLN : L ≤ newSize := by omega
  split at h
  · exact absurd h (by simp)
  · rename_i hmax
    have hb2 := (Except.ok.inj h).symm
    have r1 : b2.Bytes = List.replicate (newSize - L) 0 ++ b.Bytes := by rw [hb2]
    have r1len : b2.Bytes.length = newSize := by rw [r1]; simp; omega
    have r2 : b2.head = b.head + (newSize - L) := by rw [hb2]
    have r3 : b2.current_vtable = b.current_vtable := by rw [hb2]
    have r4 : b2.minalign = b.minalign := by rw [hb2]
    have r5 : b2.objectEnd = b.objectEnd := by rw [hb2]
    have r6 : b2.vtables = b.vtables := by rw [hb2]
    refine ⟨by omega, by omega, by omega, by omega, r3, r4, r5, r6, ?_⟩
    intro t h1 h2
    simp only [Builder.tailByte]
    rw [r1len, r1]
    have hsplit : newSize - t = (List.replicate (newSize - L) 0).length + (L - t) := by
      simp; omega
    rw [hsplit, getD_append_right]

/-- Effect of a successful Prep call: bookkeeping fields, the new offset,
the established alignment, the room reserved below head, the growth
behaviour, and the stability of all previously stored bytes. -/
theorem Prep_ok (b b2 : Builder) (size additionalBytes : Nat)
    (hwf : b.head ≤ b.Bytes.length)
    (h : b.Prep size additionalBytes = Except.ok b2) :
    b2.current_vtable = b.current_vtable ∧
    b2.objectEnd = b.objectEnd ∧
    b2.vtables = b.vtables ∧
    b2.minalign = max b.minalign size ∧
    b2.Offset = b.Offset + prepAlignSize size (b.Offset + additionalBytes) ∧
    b.Bytes.length ≤ b2.Bytes.length ∧
    b2.head ≤ b2.Bytes.length ∧
    size + additionalBytes ≤ b2.head ∧
    (b.Bytes.length < MAX_BUFFER_SIZE → b2.Bytes.length < MAX_BUFFER_SIZE) ∧
    (∀ t, 1 ≤ t → t ≤ b.Bytes.length → b2.tailByte t = b.tailByte t) ∧
    (b.head <
        prepAlignSize size (b.Offset + additionalBytes) + size + additionalBytes →
      b2.Bytes.length =
        max 1024 (max (b.Bytes.length * 2)
          (b.Bytes.length +
            (prepAlignSize size (b.Offset + additionalBytes) + size + additionalBytes) -
            b.head))) ∧
    (¬ b.head <
        prepAlignSize size (b.Offset + additionalBytes) + size + additionalBytes →
      b2.Bytes = b.Bytes) := by
  rw [Builder.Prep] at h
  have hn : b.Bytes.length - b.head + additionalBytes = b.Offset + additionalBytes := rfl
  set align := prepAlignSize size (b.Offset + additionalBytes) with halign
  simp only [hn] at h
  set total := align + size + additionalBytes with htotal
  set b1 : Builder :=
    { b with minalign := if b.minalign < size then size else b.minalign } with hb1
  have e6 : b1.minalign = max b.minalign size := by
    simp only [hb1]; split <;> omega
  by_cases hgrow : b.head < total
  · rw [if_pos hgrow] at h
    cases hg : b1.growByteBuffer total with
    | error e => rw [hg] at h; exact absurd h (by simp)
    | ok bg =>
      rw [hg] at h
      have hb2 := (Except.ok.inj h).symm
      obtain ⟨hglen, hgmax, hgle, hghead, hgcv, hgmin, hgoe, hgvt, hgpres⟩ :=
        growByteBuffer_ok _ _ _ hg
      have r1 : b2.Bytes = bg.Bytes := by rw [hb2]
      have r1len : b2.Bytes.length = bg.Bytes.length := by rw [r1]
      have r2 : b2.head = bg.head - align := by rw [hb2]
      have r3 : b2.current_vtable = bg.current_vtable := by rw [hb2]
      have r4 : b2.objectEnd = bg.objectEnd := by rw [hb2]
      have r5 : b2.vtables = bg.vtables := by rw [hb2]
      have r6 : b2.minalign = bg.minalign := by rw [hb2]
      have g1 : b1.Bytes.length = b.Bytes.length := rfl
      have g2 : b1.head = b.head := rfl
      have g3 : ∀ t, b1.tailByte t = b.tailByte t := fun t => rfl
      rw [g1, g2] at hglen
      rw [g1] at hgle
      rw [g1, g2] at hghead
      have hheadg : total ≤ bg.head := by omega
      have hOff : b2.Offset = b.Offset + align := by
        simp only [Builder.Offset, r1len, r2]
        omega
      refine ⟨by rw [r3, hgcv], by rw [r4, hgoe], by rw [r5, hgvt],
        by rw [r6, hgmin, e6], hOff, by omega, by omega, by omega,
        fun _ => by omega, ?_, fun _ => by omega, fun hcon => absurd hgrow hcon⟩
      intro t h1 h2
      simp only [Builder.tailByte, r1]
      have := hgpres t h1 (by rw [g1]; exact h2)
      simp only [Builder.tailByte] at this g3 ⊢
      rw [this]
  · rw [if_neg hgrow] at h
    have hb2 := (Except.ok.inj h).symm
    have r1 : b2.Bytes = b.Bytes := by rw [hb2]
    have r1len : b2.Bytes.length = b.Bytes.length := by rw [r1]
    have r2 : b2.head = b.head - align := by rw [hb2]
    have r3 : b2.current_vtable = b.current_vtable := by rw [hb2]
    have r4 : b2.objectEnd = b.objectEnd := by rw [hb2]
    have r5 : b2.vtables = b.vtables := by rw [hb2]
    have r6 : b2.minalign = max b.minalign size := by rw [hb2]; exact e6
    have hOff : b2.Offset = b.Offset + align := by
      simp only [Builder.Offset, r1len, r2]
      omega
    refine ⟨r3, r4, r5, r6, hOff, by omega, by omega, by omega, fun hh => by omega,
      ?_, fun hcon => absurd hcon hgrow, fun _ => r1⟩
    intro t h1 h2
    simp only [Builder.tailByte, r1]

/-- Effect of Place: the scalar is stored below the old head as its
little-endian two's-complement bit pattern and all bytes of the already
written region keep their values. -/
theorem Place_spec (b : Builder) (x : Int) (flags : TypeFlags)
    (hw : flags.bytewidth ≤ b.head) (hwf : b.head ≤ b.Bytes.length) :
    (b.Place x flags).head = b.head - flags.bytewidth ∧
    (b.Place x flags).Bytes.length = b.Bytes.length ∧
    (b.Place x flags).Offset = b.Offset + flags.bytewidth ∧
    (b.Place x flags).current_vtable = b.current_vtable ∧
    (b.Place x flags).minalign = b.minalign ∧
    (b.Place x flags).objectEnd = b.objectEnd ∧
    (b.Place x flags).vtables = b.vtables ∧
    encodeGet flags.bytewidth (b.Place x flags).Bytes ((b.Place x flags).head) =
      (x % ((2 : Int) ^ (8 * flags.bytewidth))).toNat ∧
    (∀ t, 1 ≤ t → t ≤ b.Offset → (b.Place x flags).tailByte t = b.tailByte t) := by
  have hlen : (b.Place x flags).Bytes.length = b.Bytes.length :=
    encodeWriteInt_length _ _ _ _
  refine ⟨rfl, hlen, ?_, rfl, rfl, rfl, rfl, ?_, ?_⟩
  · show (b.Place x flags).Bytes.length - (b.head - flags.bytewidth) = _
    rw [hlen]
    simp only [Builder.Offset]
    omega
  · exact encodeGet_encodeWriteInt _ _ _ _ (by omega)
  · intro t h1 h2
    simp only [Builder.tailByte, hlen]
    show (encodeWriteInt flags.bytewidth b.Bytes (b.head - flags.bytewidth) x).getD
      (b.Bytes.length - t) 0 = _
    rw [encodeWriteInt]
    refine getD_encodeWrite_outside _ _ _ _ _ (Or.inr ?_)
    simp only [Builder.Offset] at h2
    omega

/-- Effect of a successful generic Prepend: align, then store the scalar,
leaving every previously written byte in place. -/
theorem Prepend_ok (b b2 : Builder) (flags : TypeFlags) (x : Int)
    (hwf : b.head ≤ b.Bytes.length)
    (h : b.Prepend flags x = Except.ok b2) :
    b2.current_vtable = b.current_vtable ∧
    b2.objectEnd = b.objectEnd ∧
    b2.vtables = b.vtables ∧
    b2.Offset = b.Offset + prepAlignSize flags.bytewidth b.Offset + flags.bytewidth ∧
    b2.head ≤ b2.Bytes.length ∧
    b2.head = b2.Bytes.length - b2.Offset ∧
    b.Bytes.length ≤ b2.Bytes.length ∧
    (b.Bytes.length < MAX_BUFFER_SIZE → b2.Bytes.length < MAX_BUFFER_SIZE) ∧
    encodeGet flags.bytewidth b2.Bytes b2.head =
      (x % ((2 : Int) ^ (8 * flags.bytewidth))).toNat ∧
    (∀ t, 1 ≤ t → t ≤ b.Offset → b2.tailByte t = b.tailByte t) := by
  rw [Builder.Prepend] at h
  cases hp : b.Prep flags.bytewidth 0 with
  | error e => rw [hp] at h; exact absurd h (by simp)
  | ok bp =>
    rw [hp] at h
    have hb2 : b2 = bp.Place x flags := (Except.ok.inj h).symm
    obtain ⟨pcv, poe, pvt, pmin, pOff, ple, pwf, proom, pmax, ppres, _, _⟩ :=
      Prep_ok _ _ _ _ hwf hp
    simp only [Nat.add_zero] at pOff
    obtain ⟨q1, q2, q3, q4, q5, q6, q7, q8, q9⟩ :=
      Place_spec bp x flags (by omega) pwf
    rw [← hb2] at q1 q2 q3 q4 q5 q6 q7 q8 q9
    have hOff2 : b2.Offset = b.Offset + prepAlignSize flags.bytewidth b.Offset +
        flags.bytewidth := by rw [q3, pOff]
    refine ⟨by rw [q4, pcv], by rw [q6, poe], by rw [q7, pvt], hOff2, by omega,
      by simp only [Builder.Offset] at hOff2 ⊢; omega, by omega, fun hm => by omega,
      q8, ?_⟩
    intro t h1 h2
    have hOb : b.Offset ≤ b.Bytes.length := Nat.sub_le _ _
    rw [q9 t h1 (by omega)]
    exact ppres t h1 (by omega)

/-- Effect of a successful PrependSOffsetTRelative: after the alignment
step the non-negative delta plus four is stored as a little-endian signed
32-bit value directly below the old head. -/
theorem PrependSOffsetTRelative_ok (b b2 : Builder) (off : Int)
    (hwf : b.head ≤ b.Bytes.length)
    (h : b.PrependSOffsetTRelative off = Except.ok b2) :
    (0 : Int) ≤ ((b.Offset + prepAlignSize 4 b.Offset : Nat) : Int) - off ∧
    b2.Offset = b.Offset + prepAlignSize 4 b.Offset + 4 ∧
    b2.current_vtable = b.current_vtable ∧
    b2.objectEnd = b.objectEnd ∧
    b2.vtables = b.vtables ∧
    b2.head ≤ b2.Bytes.length ∧
    b2.head = b2.Bytes.length - b2.Offset ∧
    b.Bytes.length ≤ b2.Bytes.length ∧
    (b.Bytes.length < MAX_BUFFER_SIZE → b2.Bytes.length < MAX_BUFFER_SIZE) ∧
    encodeGet 4 b2.Bytes b2.head =
      (((((b.Offset + prepAlignSize 4 b.Offset : Nat) : Int) - off) + 4) %
        ((2 : Int) ^ 32)).toNat ∧
    (∀ t, 1 ≤ t → t ≤ b.Offset → b2.tailByte t = b.tailByte t) := by
  rw [Builder.PrependSOffsetTRelative] at h
  cases hp : b.Prep SOffsetTFlags.bytewidth 0 with
  | error e => rw [hp] at h; exact absurd h (by simp)
  | ok bp =>
    rw [hp] at h
    dsimp only at h
    obtain ⟨pcv, poe, pvt, pmin, pOff, ple, pwf, proom, pmax, ppres, _, _⟩ :=
      Prep_ok _ _ _ _ hwf hp
    simp only [Nat.add_zero] at pOff
    have hw4 : SOffsetTFlags.bytewidth = 4 := rfl
    rw [hw4] at pOff proom
    by_cases hneg : ((bp.Offset : Int) - off) < 0
    · rw [if_pos hneg] at h
      exact absurd h (by simp)
    · rw [if_neg hneg] at h
      have hb2 : b2 = bp.Place ((bp.Offset : Int) - off + SOffsetTFlags.bytewidth)
          SOffsetTFlags := (Except.ok.inj h).symm
      obtain ⟨q1, q2, q3, q4, q5, q6, q7, q8, q9⟩ :=
        Place_spec bp ((bp.Offset : Int) - off + SOffsetTFlags.bytewidth)
          SOffsetTFlags (by rw [hw4]; omega) pwf
      rw [← hb2] at q1 q2 q3 q4 q5 q6 q7 q8 q9
      rw [hw4] at q3
      have hOffbp : (bp.Offset : Int) = ((b.Offset + prepAlignSize 4 b.Offset : Nat) : Int) := by
        exact_mod_cast congrArg (Nat.cast : Nat → Int) pOff
      refine ⟨by rw [← hOffbp]; omega, by rw [q3, pOff], by rw [q4, pcv],
        by rw [q6, poe], by rw [q7, pvt], by omega,
        by simp only [Builder.Offset] at q3 ⊢; omega, by omega, fun hm => by omega,
        ?_, ?_⟩
      · rw [hw4] at q8
        rw [q8, hOffbp]
        norm_num
      · intro t h1 h2
        have hOb : b.Offset ≤ b.Bytes.length := Nat.sub_le _ _
        rw [q9 t h1 (by omega)]
        exact ppres t h1 (by omega)

/-- Effect of a successful PrependUOffsetTRelative: identical to the
signed variant except for the kind of the stored scalar. -/
theorem PrependUOffsetTRelative_ok (b b2 : Builder) (off : Int)
    (hwf : b.head ≤ b.Bytes.length)
    (h : b.PrependUOffsetTRelative off = Except.ok b2) :
    (0 : Int) ≤ ((b.Offset + prepAlignSize 4 b.Offset : Nat) : Int) - off ∧
    b2.Offset = b.Offset + prepAlignSize 4 b.Offset + 4 ∧
    b2.current_vtable = b.current_vtable ∧
    b2.objectEnd = b.objectEnd ∧
    b2.vtables = b.vtables ∧
    b2.head ≤ b2.Bytes.length ∧
    b2.head = b2.Bytes.length - b2.Offset ∧
    b.Bytes.length ≤ b2.Bytes.length ∧
    (b.Bytes.length < MAX_BUFFER_SIZE → b2.Bytes.length < MAX_BUFFER_SIZE) ∧
    encodeGet 4 b2.Bytes b2.head =
      (((((b.Offset + prepAlignSize 4 b.Offset : Nat) : Int) - off) + 4) %
        ((2 : Int) ^ 32)).toNat ∧
    (∀ t, 1 ≤ t → t ≤ b.Offset → b2.tailByte t = b.tailByte t) := by
  rw [Builder.PrependUOffsetTRelative] at h
  cases hp : b.Prep UOffsetTFlags.bytewidth 0 with
  | error e => rw [hp] at h; exact absurd h (by simp)
  | ok bp =>
    rw [hp] at h
    dsimp only at h
    obtain ⟨pcv, poe, pvt, pmin, pOff, ple, pwf, proom, pmax, ppres, _, _⟩ :=
      Prep_ok _ _ _ _ hwf hp
    simp only [Nat.add_zero] at pOff
    have hw4 : UOffsetTFlags.bytewidth = 4 := rfl
    rw [hw4] at pOff proom
    by_cases hneg : ((bp.Offset : Int) - off) < 0
    · rw [if_pos hneg] at h
      exact absurd h (by simp)
    · rw [if_neg hneg] at h
      have hb2 : b2 = bp.Place ((bp.Offset : Int) - off + UOffsetTFlags.bytewidth)
          UOffsetTFlags := (Except.ok.inj h).symm
      obtain ⟨q1, q2, q3, q4, q5, q6, q7, q8, q9⟩ :=
        Place_spec bp ((bp.Offset : Int) - off + UOffsetTFlags.bytewidth)
          UOffsetTFlags (by rw [hw4]; omega) pwf
      rw [← hb2] at q1 q2 q3 q4 q5 q6 q7 q8 q9
      rw [hw4] at q3
      have hOffbp : (bp.Offset : Int) = ((b.Offset + prepAlignSize 4 b.Offset : Nat) : Int) := by
        exact_mod_cast congrArg (Nat.cast : Nat → Int) pOff
      refine ⟨by rw [← hOffbp]; omega, by rw [q3, pOff], by rw [q4, pcv],
        by rw [q6, poe], by rw [q7, pvt], by omega,
        by simp only [Builder.Offset] at q3 ⊢; omega, by omega, fun hm => by omega,
        ?_, ?_⟩
      · rw [hw4] at q8
        rw [q8, hOffbp]
        norm_num
      · intro t h1 h2
        have hOb : b.Offset ≤ b.Bytes.length := Nat.sub_le _ _
        rw [q9 t h1 (by omega)]
        exact ppres t h1 (by omega)

/-! Claim C4: default elision. -/

/-- C4: for every scalar kind, calling the slot variant with value equal
to the default is a complete no-op (no bytes written, current_vtable
untouched, so a zero slot stays zero), and on the reader side GetSlot
returns the default whenever the vtable offset of the slot is zero. -/
theorem C4_default_elision (b : Builder) (flags gflags : TypeFlags) (i : Nat)
    (d : Int) (cv : List Nat) (t : Table) (slot : Nat) (d2 : Int)
    (hin : b.current_vtable = some cv) (hz : cv.getD i 0 = 0)
    (hoff : t.Offset slot = 0) :
    b.PrependSlot flags i d d = Except.ok b ∧
    (b.PrependSlot flags i d d).map
      (fun b2 => ((b2.current_vtable.getD []).getD i 0, b2.Bytes, b2.head)) =
      Except.ok (0, b.Bytes, b.head) ∧
    t.GetSlot gflags slot d2 = d2 := by
  have hnoop : b.PrependSlot flags i d d = Except.ok b := by
    simp [Builder.PrependSlot]
  refine ⟨hnoop, ?_, ?_⟩
  · rw [hnoop]
    simp [Except.map, hin]
    simpa [List.getD] using hz
  · simp [Table.GetSlot, hoff]

theorem C4_default_elision_witness :
    ((⟨[0, 0], some [0], 2, 1, none, []⟩ : Builder).PrependSlot Int32Flags 0 7 7 =
      Except.ok (⟨[0, 0], some [0], 2, 1, none, []⟩ : Builder)) ∧
    ((⟨[0, 0], some [0], 2, 1, none, []⟩ : Builder).PrependSlot Int32Flags 0 7 7).map
      (fun b2 => ((b2.current_vtable.getD []).getD 0 0, b2.Bytes, b2.head)) =
      Except.ok (0, [0, 0], 2) ∧
    Table.GetSlot ⟨[0, 0, 0, 0], 0⟩ Int32Flags 4 42 = 42 :=
  C4_default_elision ⟨[0, 0], some [0], 2, 1, none, []⟩ Int32Flags Int32Flags 0 7 [0]
    ⟨[0, 0, 0, 0], 0⟩ 4 42 rfl (by decide) (by decide)

/-! Claim C6: Indirect and Vector. -/

/-- C6 (amended): Indirect off returns off plus the UOffset read at
Pos + off, which is the position the embedded UOffset points to measured
relative to Pos (the absolute position is Pos plus this value, obtained
here by adding Pos to both sides); Vector off likewise returns the
Pos-relative position of the first vector element, four bytes past the
length word. -/
theorem C6_indirect_vector (t : Table) (off : Nat) :
    t.Indirect off = off + encodeGet 4 t.Bytes (t.Pos + off) ∧
    t.Pos + t.Indirect off = (t.Pos + off) + encodeGet 4 t.Bytes (t.Pos + off) ∧
    t.Vector off = (off + encodeGet 4 t.Bytes (t.Pos + off)) + 4 := by
  refine ⟨?_, ?_, ?_⟩
  · rw [Table.Indirect, Nat.add_comm off t.Pos]
  · rw [Table.Indirect, Nat.add_comm off t.Pos]
    omega
  · show off + encodeGet 4 t.Bytes (off + t.Pos) + UOffsetTFlags.bytewidth = _
    rw [Nat.add_comm off t.Pos]
    rfl

/-- C6 counterexample: with Pos = 4, off = 4 and a stored UOffset of 8,
Indirect returns 12 and Vector returns 16, while the absolute positions
pointed to are 16 and 20 respectively; so neither result is the absolute
buffer position claimed. -/
theorem C6_counterexample :
    Table.Indirect ⟨[0, 0, 0, 0, 0, 0, 0, 0, 8, 0, 0, 0, 0, 0, 0, 0, 0, 0, 0, 0], 4⟩ 4 =
      12 ∧
    (4 : Nat) + 4 + encodeGet 4
      [0, 0, 0, 0, 0, 0, 0, 0, 8, 0, 0, 0, 0, 0, 0, 0, 0, 0, 0, 0] (4 + 4) = 16 ∧
    (12 : Nat) ≠ 16 ∧
    Table.Vector ⟨[0, 0, 0, 0, 0, 0, 0, 0, 8, 0, 0, 0, 0, 0, 0, 0, 0, 0, 0, 0], 4⟩ 4 =
      16 ∧
    (4 : Nat) + 4 + encodeGet 4
      [0, 0, 0, 0, 0, 0, 0, 0, 8, 0, 0, 0, 0, 0, 0, 0, 0, 0, 0, 0] (4 + 4) + 4 = 20 ∧
    (16 : Nat) ≠ 20 := by
  decide

/-! Claim C7: buffer size bounds. -/

/-- C7 (amended): the constructor raises BuilderSizeError exactly for an
initial size that is negative or strictly greater than 2^31, so a
successfully constructed buffer may have size up to and including 2^31;
growByteBuffer raises BuilderSizeError exactly when the computed new size
would reach 2^31, so every successfully grown buffer is strictly smaller
than 2^31 bytes. -/
theorem C7_buffer_size_bounds :
    (∀ n : Int, Builder.init n = Except.error Err.builderSize ↔
      (n < 0 ∨ (MAX_BUFFER_SIZE : Int) < n)) ∧
    (∀ (n : Int) (b : Builder), Builder.init n = Except.ok b →
      b.Bytes.length ≤ MAX_BUFFER_SIZE ∧ (b.Bytes.length : Int) = n) ∧
    (∀ (b b2 : Builder) (freeSize : Nat), b.growByteBuffer freeSize = Except.ok b2 →
      b2.Bytes.length < MAX_BUFFER_SIZE) ∧
    (∀ (b : Builder) (freeSize : Nat),
      b.growByteBuffer freeSize = Except.error Err.builderSize ↔
        MAX_BUFFER_SIZE ≤
          max 1024 (max (b.Bytes.length * 2) (b.Bytes.length + freeSize - b.head))) := by
  refine ⟨?_, ?_, ?_, ?_⟩
  · intro n
    rw [Builder.init]
    split
    · rename_i hc
      constructor
      · intro hcon
        exact absurd hcon (by simp)
      · intro hcon
        exact absurd hcon (by omega)
    · rename_i hc
      push_neg at hc
      constructor
      · intro _
        rcases lt_or_le n 0 with h0 | h0
        · exact Or.inl h0
        · exact Or.inr (hc h0)
      · intro _
        rfl
  · intro n b h
    rw [Builder.init] at h
    split at h
    · rename_i hc
      have hb : b = ⟨List.replicate n.toNat 0, none, n.toNat, 1, none, []⟩ :=
        (Except.ok.inj h).symm
      have hlen : b.Bytes.length = n.toNat := by rw [hb]; simp
      constructor
      · rw [hlen]; omega
      · rw [hlen]; omega
    · exact absurd h (by simp)
  · intro b b2 freeSize h
    exact (growByteBuffer_ok _ _ _ h).2.1
  · intro b freeSize
    rw [Builder.growByteBuffer]
    split
    · rename_i hc
      simpa using hc
    · rename_i hc
      simp only [not_le] at hc
      constructor
      · intro hcon
        exact absurd hcon (by simp)
      · intro hcon
        omega

/-- C7 counterexample: an initial size of exactly 2^31 is accepted by
the constructor, which then owns a buffer of exactly 2^31 bytes, not
strictly fewer. -/
theorem C7_counterexample :
    (Builder.init ((2 : Int) ^ 31)).map (fun b => b.Bytes.length) =
      Except.ok (2 ^ 31) ∧
    ¬ ((2 ^ 31 : Nat) < 2 ^ 31) := by
  constructor
  · have hcond : (0 : Int) ≤ 2 ^ 31 ∧ ((2 : Int) ^ 31) ≤ (MAX_BUFFER_SIZE : Int) := by
      norm_num [MAX_BUFFER_SIZE]
    rw [Builder.init, if_pos hcond]
    show Except.ok (List.replicate ((2 : Int) ^ 31).toNat 0).length = Except.ok (2 ^ 31)
    rw [List.length_replicate]
    rfl
  · omega

theorem C7_buffer_size_bounds_witness :
    ((Builder.init (-1) = Except.error Err.builderSize) ↔
      ((-1 : Int) < 0 ∨ (MAX_BUFFER_SIZE : Int) < -1)) ∧
    ((⟨[], none, 0, 1, none, []⟩ : Builder).Bytes.length ≤ MAX_BUFFER_SIZE ∧
      (((⟨[], none, 0, 1, none, []⟩ : Builder).Bytes.length : Int) = 0)) ∧
    (⟨List.replicate 1024 0 ++ [], none, 0 + 1024, 1, none, []⟩ : Builder).Bytes.length <
      MAX_BUFFER_SIZE :=
  ⟨C7_buffer_size_bounds.1 (-1),
    C7_buffer_size_bounds.2.1 0 ⟨[], none, 0, 1, none, []⟩ rfl,
    C7_buffer_size_bounds.2.2.1 ⟨[], none, 0, 1, none, []⟩
      ⟨List.replicate 1024 0 ++ [], none, 0 + 1024, 1, none, []⟩ 0 rfl⟩

/-! Claim C9: growth preserves content. -/

/-- C9: a successful growByteBuffer allocates
max(1024, 2 L, L + demand - head) bytes, copies the old content into the
tail of the new buffer, increases head by the size difference, and every
byte addressed by its Offset-from-tail within the old buffer (in
particular within the previously written region) is unchanged. -/
theorem C9_grow_preserves_content (b b2 : Builder) (freeSize : Nat)
    (h : b.growByteBuffer freeSize = Except.ok b2) :
    b2.Bytes.length =
      max 1024 (max (2 * b.Bytes.length) (b.Bytes.length + freeSize - b.head)) ∧
    b2.head = b.head + (b2.Bytes.length - b.Bytes.length) ∧
    (∀ j, j < b.Bytes.length →
      b2.Bytes.getD (b2.Bytes.length - b.Bytes.length + j) 0 = b.Bytes.getD j 0) ∧
    (∀ t, 1 ≤ t → t ≤ b.Bytes.length → b2.tailByte t = b.tailByte t) := by
  obtain ⟨hlen, hmax, hle, hhead, _, _, _, _, hpres⟩ := growByteBuffer_ok _ _ _ h
  refine ⟨by omega, hhead, ?_, hpres⟩
  intro j hj
  have := hpres (b.Bytes.length - j) (by omega) (by omega)
  simp only [Builder.tailByte] at this
  rw [show b2.Bytes.length - (b.Bytes.length - j) =
      b2.Bytes.length - b.Bytes.length + j by omega] at this
  rw [show b.Bytes.length - (b.Bytes.length - j) = j by omega] at this
  exact this

set_option maxRecDepth 8192 in
theorem C9_grow_preserves_content_witness :
    ((⟨List.replicate 1023 0 ++ [7], none, 1 + 1023, 1, none, []⟩ : Builder).Bytes.length =
      max 1024 (max (2 * ([7] : List Nat).length) (([7] : List Nat).length + 0 - 1)) ∧
    (⟨List.replicate 1023 0 ++ [7], none, 1 + 1023, 1, none, []⟩ : Builder).head =
      1 + ((⟨List.replicate 1023 0 ++ [7], none, 1 + 1023, 1, none, []⟩ : Builder).Bytes.length -
        ([7] : List Nat).length) ∧
    (∀ j, j < ([7] : List Nat).length →
      (⟨List.replicate 1023 0 ++ [7], none, 1 + 1023, 1, none, []⟩ : Builder).Bytes.getD
        ((⟨List.replicate 1023 0 ++ [7], none, 1 + 1023, 1, none, []⟩ : Builder).Bytes.length -
          ([7] : List Nat).length + j) 0 = ([7] : List Nat).getD j 0) ∧
    (∀ t, 1 ≤ t → t ≤ ([7] : List Nat).length →
      (⟨List.replicate 1023 0 ++ [7], none, 1 + 1023, 1, none, []⟩ : Builder).tailByte t =
        (⟨[7], none, 1, 1, none, []⟩ : Builder).tailByte t)) :=
  C9_grow_preserves_content ⟨[7], none, 1, 1, none, []⟩
    ⟨List.replicate 1023 0 ++ [7], none, 1 + 1023, 1, none, []⟩ 0 rfl

/-! Claim C10: Table construction. -/

/-- C10: constructing a Table, also through GetRoot, raises TypeError
exactly when the position lies outside the unsigned 32-bit range; inside
the range the buffer and position are stored unchanged. -/
theorem C10_table_init :
    (∀ (buf : List Nat) (pos : Int),
      (Table.init buf pos = Except.error Err.typeError ↔
        pos < 0 ∨ ((2 : Int) ^ 32 - 1) < pos) ∧
      (∀ t, Table.init buf pos = Except.ok t → t.Bytes = buf ∧ (t.Pos : Int) = pos)) ∧
    (∀ (buf : List Nat) (offset : Nat),
      Table.GetRoot buf offset =
        Table.init buf ((encodeGet 4 buf offset : Int) + (offset : Int))) := by
  constructor
  · intro buf pos
    constructor
    · rw [Table.init]
      split
      · rename_i hc
        constructor
        · intro hcon
          exact absurd hcon (by simp)
        · intro hcon
          have h1 : UOffsetTFlags.min_val = 0 := rfl
          have h2 : UOffsetTFlags.max_val = 2 ^ 32 - 1 := rfl
          rw [h1, h2] at hc
          exact absurd hcon (by omega)
      · rename_i hc
        have h1 : UOffsetTFlags.min_val = 0 := rfl
        have h2 : UOffsetTFlags.max_val = 2 ^ 32 - 1 := rfl
        rw [h1, h2] at hc
        push_neg at hc
        constructor
        · intro _
          rcases lt_or_le pos 0 with h0 | h0
          · exact Or.inl h0
          · exact Or.inr (hc h0)
        · intro _
          rfl
    · intro t h
      rw [Table.init] at h
      split at h
      · rename_i hc
        have h1 : UOffsetTFlags.min_val = 0 := rfl
        rw [h1] at hc
        have ht : t = ⟨buf, pos.toNat⟩ := (Except.ok.inj h).symm
        refine ⟨by rw [ht], ?_⟩
        rw [ht]
        simp only
        omega
      · exact absurd h (by simp)
  · intro buf offset
    rfl

theorem C10_table_init_witness :
    ((Table.init [0, 1] (-1) = Except.error Err.typeError ↔
      ((-1 : Int) < 0 ∨ ((2 : Int) ^ 32 - 1) < -1)) ∧
    ((⟨[0, 1], 5⟩ : Table).Bytes = [0, 1] ∧ (((⟨[0, 1], 5⟩ : Table).Pos : Int) = 5))) ∧
    Table.GetRoot [0, 1] 0 =
      Table.init [0, 1] ((encodeGet 4 [0, 1] 0 : Int) + ((0 : Nat) : Int)) :=
  ⟨⟨(C10_table_init.1 [0, 1] (-1)).1,
    (C10_table_init.1 [0, 1] 5).2 ⟨[0, 1], 5⟩ rfl⟩,
    C10_table_init.2 [0, 1] 0⟩

/-! Claim C2: the Prep alignment contract. -/

/-- C2 (amended): a successful Prep computes the padding as
(-(L - head + additional)) mod size (equal to the two's-complement
bitmask of the source for a power-of-two size), grows the buffer first
exactly when head < pad + size + additional, and on return the write
position is size-aligned after additional bytes and size ≤ minalign; the
pad bytes it skips over are left unmodified rather than being written as
zero bytes. -/
theorem C2_prep_alignment (b b2 : Builder) (size additionalBytes k : Nat)
    (hpow : size = 2 ^ k)
    (hwf : b.head ≤ b.Bytes.length)
    (h : b.Prep size additionalBytes = Except.ok b2) :
    prepAlignSize size (b.Offset + additionalBytes) =
      (size - (b.Offset + additionalBytes) % size) &&& (size - 1) ∧
    (b2.Bytes.length - b2.head + additionalBytes) % size = 0 ∧
    size ≤ b2.minalign ∧
    (b.head < prepAlignSize size (b.Offset + additionalBytes) + size + additionalBytes →
      b2.Bytes.length = max 1024 (max (2 * b.Bytes.length)
        (b.Bytes.length + (prepAlignSize size (b.Offset + additionalBytes) + size +
          additionalBytes) - b.head))) ∧
    (¬ b.head < prepAlignSize size (b.Offset + additionalBytes) + size + additionalBytes →
      b2.Bytes = b.Bytes) ∧
    b2.head = b.head + (b2.Bytes.length - b.Bytes.length) -
      prepAlignSize size (b.Offset + additionalBytes) ∧
    (∀ t, 1 ≤ t → t ≤ b.Bytes.length → b2.tailByte t = b.tailByte t) := by
  obtain ⟨pcv, poe, pvt, pmin, pOff, ple, pwf, proom, pmax, ppres, pgrow, pnogrow⟩ :=
    Prep_ok _ _ _ _ hwf h
  have hs : 0 < size := by rw [hpow]; positivity
  refine ⟨by rw [hpow]; exact prepAlignSize_eq_two_pow_mask k _, ?_, by omega,
    fun hg => by have := pgrow hg; omega, pnogrow, ?_, ppres⟩
  · have h1 : b2.Bytes.length - b2.head =
        (b.Bytes.length - b.head) + prepAlignSize size (b.Offset + additionalBytes) :=
      pOff
    have h2 : b.Bytes.length - b.head = b.Offset := rfl
    rw [h1, h2]
    have h3 : b.Offset + prepAlignSize size (b.Offset + additionalBytes) +
        additionalBytes =
        (b.Offset + additionalBytes) + prepAlignSize size (b.Offset + additionalBytes) := by
      omega
    rw [h3]
    exact prepAlignSize_add_mod size _ hs
  · have h1 : b2.Bytes.length - b2.head =
        (b.Bytes.length - b.head) + prepAlignSize size (b.Offset + additionalBytes) :=
      pOff
    omega

theorem C2_prep_alignment_witness :
    ((⟨List.replicate 16 0, none, 12, 4, none, []⟩ : Builder).Bytes.length - 12 + 0) %
      4 = 0 :=
  (C2_prep_alignment ⟨List.replicate 16 0, none, 15, 1, none, []⟩
    ⟨List.replicate 16 0, none, 12, 4, none, []⟩ 4 0 2 rfl (by decide) rfl).2.1

/-- The concrete run refuting the zero-padding conjunct of C2: fill a
16-byte Builder with the byte 171, Reset it, prepend one byte, and let
Prep(4, 0) skip three bytes of padding. -/
def c2pre : Except Err Builder := do
  let b ← Builder.init 16
  let b ← b.PrependUint8 171
  let b ← b.PrependUint8 171
  let b ← b.PrependUint8 171
  let b ← b.PrependUint8 171
  let b := b.Reset
  b.PrependUint8 1

def c2post : Except Err Builder := do
  let b ← c2pre
  b.Prep 4 0

/-- C2 counterexample: in a reachable state (after a Reset) Prep(4, 0)
moves head from 15 to 12, and the skipped byte at distance 4 from the
tail (absolute position 12, inside the pad region) still holds 171, not
the zero byte the claim asserts is written. -/
theorem C2_counterexample :
    c2pre.map (fun b => (b.head, b.tailByte 4)) = Except.ok (15, 171) ∧
    c2post.map (fun b => (b.head, b.tailByte 4)) = Except.ok (12, 171) ∧
    (171 : Nat) ≠ 0 := by
  refine ⟨rfl, rfl, by decide⟩

/-! Claim C8: the relative-offset prepends. -/

/-- C8: both PrependSOffsetTRelative and PrependUOffsetTRelative first
align via Prep(4, 0) (reflected by the hypothesis describing that step),
then raise OffsetArithmeticError exactly when Offset() - targetOffset is
negative, and otherwise store the little-endian 4-byte value
(Offset() - targetOffset) + 4 while decrementing head by 4 (the stored
bit pattern represents that value whenever it fits the 32-bit kind). -/
theorem C8_prepend_offset_relative (b bp : Builder) (t : Int)
    (hwf : b.head ≤ b.Bytes.length)
    (hprep : b.Prep 4 0 = Except.ok bp) :
    (b.PrependSOffsetTRelative t = Except.error Err.offsetArithmetic ↔
      (bp.Offset : Int) - t < 0) ∧
    (b.PrependUOffsetTRelative t = Except.error Err.offsetArithmetic ↔
      (bp.Offset : Int) - t < 0) ∧
    (∀ b2, b.PrependSOffsetTRelative t = Except.ok b2 →
      b2.head = bp.head - 4 ∧ b2.Bytes.length = bp.Bytes.length ∧
      (-(2 ^ 31) ≤ (bp.Offset : Int) - t + 4 → (bp.Offset : Int) - t + 4 < 2 ^ 31 →
        readSOffset b2.Bytes b2.head = (bp.Offset : Int) - t + 4)) ∧
    (∀ b2, b.PrependUOffsetTRelative t = Except.ok b2 →
      b2.head = bp.head - 4 ∧ b2.Bytes.length = bp.Bytes.length ∧
      ((bp.Offset : Int) - t + 4 < 2 ^ 32 →
        (encodeGet 4 b2.Bytes b2.head : Int) = (bp.Offset : Int) - t + 4)) := by
  obtain ⟨pcv, poe, pvt, pmin, pOff, ple, pwf, proom, pmax, ppres, _, _⟩ :=
    Prep_ok _ _ _ _ hwf hprep
  have hS : b.Prep SOffsetTFlags.bytewidth 0 = Except.ok bp := hprep
  have hU : b.Prep UOffsetTFlags.bytewidth 0 = Except.ok bp := hprep
  have hroom : 4 ≤ bp.head := by omega
  by_cases hneg : ((bp.Offset : Int) - t) < 0
  · rw [Builder.PrependSOffsetTRelative, hS, Builder.PrependUOffsetTRelative, hU]
    dsimp only
    rw [if_pos hneg, if_pos hneg]
    refine ⟨⟨fun _ => hneg, fun _ => rfl⟩, ⟨fun _ => hneg, fun _ => rfl⟩, ?_, ?_⟩
    · intro b2 hcon
      exact absurd hcon (by simp)
    · intro b2 hcon
      exact absurd hcon (by simp)
  · rw [Builder.PrependSOffsetTRelative, hS, Builder.PrependUOffsetTRelative, hU]
    dsimp only
    rw [if_neg hneg, if_neg hneg]
    refine ⟨⟨fun hcon => absurd hcon (by simp), fun hcon => absurd hcon hneg⟩,
      ⟨fun hcon => absurd hcon (by simp), fun hcon => absurd hcon hneg⟩, ?_, ?_⟩
    · intro b2 h2
      have hb2 : b2 = bp.Place ((bp.Offset : Int) - t + SOffsetTFlags.bytewidth)
          SOffsetTFlags := (Except.ok.inj h2).symm
      have hhead : b2.head = bp.head - 4 := by rw [hb2]; rfl
      have hlen : b2.Bytes.length = bp.Bytes.length := by
        rw [hb2]
        exact encodeWriteInt_length _ _ _ _
      refine ⟨hhead, hlen, ?_⟩
      intro hlo hhi
      have hBytes : b2.Bytes =
          encodeWriteInt 4 bp.Bytes (bp.head - 4)
            ((bp.Offset : Int) - t + 4) := by rw [hb2]; rfl
      rw [hBytes, hhead]
      exact readSOffset_encodeWriteInt _ _ _ (by omega) (by omega) (by omega)
    · intro b2 h2
      have hb2 : b2 = bp.Place ((bp.Offset : Int) - t + UOffsetTFlags.bytewidth)
          UOffsetTFlags := (Except.ok.inj h2).symm
      have hhead : b2.head = bp.head - 4 := by rw [hb2]; rfl
      have hlen : b2.Bytes.length = bp.Bytes.length := by
        rw [hb2]
        exact encodeWriteInt_length _ _ _ _
      refine ⟨hhead, hlen, ?_⟩
      intro hhi
      have hBytes : b2.Bytes =
          encodeWriteInt 4 bp.Bytes (bp.head - 4)
            ((bp.Offset : Int) - t + 4) := by rw [hb2]; rfl
      rw [hBytes, hhead]
      rw [encodeGet_encodeWriteInt 4 bp.Bytes (bp.head - 4) _ (by omega)]
      have hv : ((bp.Offset : Int) - t + 4) % ((2 : Int) ^ (8 * 4)) =
          (bp.Offset : Int) - t + 4 := by
        have h84 : ((2 : Int) ^ (8 * 4)) = (2 : Int) ^ 32 := by norm_num
        rw [h84]
        exact Int.emod_eq_of_lt (by omega) (by omega)
      rw [hv]
      omega

theorem C8_prepend_offset_relative_witness :
    readSOffset [0, 0, 0, 0, 4, 0, 0, 0] 4 =
      ((⟨List.replicate 8 0, none, 8, 4, none, []⟩ : Builder).Offset : Int) - 0 + 4 := by
  have h := (C8_prepend_offset_relative ⟨List.replicate 8 0, none, 8, 1, none, []⟩
    ⟨List.replicate 8 0, none, 8, 4, none, []⟩ 0 (by decide) rfl).2.2.1
    ⟨[0, 0, 0, 0, 4, 0, 0, 0], none, 4, 4, none, []⟩ rfl
  exact h.2.2 (by decide) (by decide)

/-! Claim C5: the minimal-table scenario S1. -/

/-- The S1 scenario run on a fresh default Builder:
StartObject(3); EndObject(); Finish(root). -/
def s1output : Except Err (List Nat) := do
  let b ← Builder.init 1024
  let b ← b.StartObject 3
  let (b, o) ← b.EndObject
  let (b, _) ← b.Finish o
  pure b.Output

set_option maxRecDepth 100000 in
/-- C5 counterexample: the S1 output has 20 bytes, not the 16 the claim
asserts (a 3-slot vtable occupies (3+2)*2 = 10 bytes, not 8, and 2
alignment padding bytes precede it). -/
theorem C5_counterexample :
    s1output.map List.length = Except.ok 20 ∧ (20 : Nat) ≠ 16 :=
  ⟨rfl, by decide⟩

set_option maxRecDepth 100000 in
/-- C5 (amended): on a fresh Builder, StartObject(3); EndObject();
Finish(root) produces exactly 20 bytes: a 4-byte root UOffset with value
16, 2 bytes of alignment padding, a 10-byte vtable whose VOffset contents
are (10, 4, 0, 0, 0), and the 4-byte object header SOffset with value 10
pointing back to that vtable. -/
theorem C5_minimal_table :
    s1output =
      Except.ok [16, 0, 0, 0, 0, 0, 10, 0, 4, 0, 0, 0, 0, 0, 0, 0, 10, 0, 0, 0] ∧
    encodeGet 4 [16, 0, 0, 0, 0, 0, 10, 0, 4, 0, 0, 0, 0, 0, 0, 0, 10, 0, 0, 0] 0 =
      16 ∧
    readSOffset [16, 0, 0, 0, 0, 0, 10, 0, 4, 0, 0, 0, 0, 0, 0, 0, 10, 0, 0, 0] 16 =
      10 ∧
    encodeGet 2 [16, 0, 0, 0, 0, 0, 10, 0, 4, 0, 0, 0, 0, 0, 0, 0, 10, 0, 0, 0] 6 =
      10 ∧
    encodeGet 2 [16, 0, 0, 0, 0, 0, 10, 0, 4, 0, 0, 0, 0, 0, 0, 0, 10, 0, 0, 0] 8 =
      4 ∧
    encodeGet 2 [16, 0, 0, 0, 0, 0, 10, 0, 4, 0, 0, 0, 0, 0, 0, 0, 10, 0, 0, 0] 10 =
      0 ∧
    encodeGet 2 [16, 0, 0, 0, 0, 0, 10, 0, 4, 0, 0, 0, 0, 0, 0, 0, 10, 0, 0, 0] 12 =
      0 ∧
    encodeGet 2 [16, 0, 0, 0, 0, 0, 10, 0, 4, 0, 0, 0, 0, 0, 0, 0, 10, 0, 0, 0] 14 =
      0 :=
  ⟨rfl, by decide, by decide, by decide, by decide, by decide, by decide, by decide⟩

/-! Claim C3: CreateString and Table.String round trip. -/

/-- C3: CreateString writes the payload followed by a single NUL byte not
counted in the 4-byte length prefix, which equals len(s); after storing a
UOffset to the string (as a field value would), Table.String at that
field position returns exactly s with the terminator excluded. -/
theorem C3_create_string_roundtrip (b b1 b2 : Builder) (s : List Nat) (strOff : Nat)
    (hwf : b.head ≤ b.Bytes.length)
    (hbytes : ∀ c ∈ s, c < 256)
    (hlen32 : s.length < 2 ^ 32)
    (h1 : b.CreateString s = Except.ok (b1, strOff))
    (h2 : b1.PrependUOffsetTRelative (strOff : Int) = Except.ok b2) :
    encodeGet 4 b1.Bytes (b1.Bytes.length - strOff) = s.length ∧
    (∀ j, j < s.length →
      b1.Bytes.getD (b1.Bytes.length - strOff + 4 + j) 0 = s.getD j 0) ∧
    b1.Bytes.getD (b1.Bytes.length - strOff + 4 + s.length) 0 = 0 ∧
    Table.String ⟨b2.Bytes, b2.head⟩ 0 = s := by
  rw [Builder.CreateString] at h1
  by_cases hnest : b.current_vtable.isSome
  · rw [Builder.assertNotNested, if_pos hnest] at h1
    exact absurd h1 (by simp)
  rw [Builder.assertNotNested, if_neg hnest] at h1
  dsimp only at h1
  cases hA : b.Prep UOffsetTFlags.bytewidth (s.length + 1) with
  | error e => rw [hA] at h1; exact absurd h1 (by simp)
  | ok bA =>
  rw [hA] at h1
  dsimp only at h1
  obtain ⟨pcv, poe, pvt, pmin, pOff, ple, pwf, proom, pmax, ppres, _, _⟩ :=
    Prep_ok _ _ _ _ hwf hA
  have hw4 : UOffsetTFlags.bytewidth = 4 := rfl
  rw [hw4] at pOff proom
  set l := s.length with hl
  set bB := bA.Pad 1 with hbB
  set bC : Builder :=
    { bB with head := bB.head - l, Bytes := writeBytes bB.Bytes (bB.head - l) s }
    with hbC
  set bD := bC.Place (l : Int) UOffsetTFlags with hbD
  have hpair := Except.ok.inj h1
  have hb1 : bD = b1 := congrArg Prod.fst hpair
  have hoff : bD.Offset = strOff := congrArg Prod.snd hpair
  -- structural facts about the intermediate builders
  have hLB : bB.Bytes.length = bA.Bytes.length := encodeWrite_length _ _ _ _
  have hLC : bC.Bytes.length = bA.Bytes.length := by
    show (writeBytes bB.Bytes (bB.head - l) s).length = _
    rw [writeBytes_length, hLB]
  have hLD : bD.Bytes.length = bA.Bytes.length := by
    show (encodeWriteInt UOffsetTFlags.bytewidth bC.Bytes
      (bC.head - UOffsetTFlags.bytewidth) (l : Int)).length = _
    rw [encodeWriteInt_length, hLC]
  have hBhead : bB.head = bA.head - 1 := rfl
  have hChead : bC.head = bA.head - 1 - l := rfl
  have hDhead : bD.head = bA.head - 1 - l - 4 := rfl
  have hroom : l + 5 ≤ bA.head := by omega
  have hOA : bA.Offset = bA.Bytes.length - bA.head := rfl
  have hODdef : bD.Offset = bD.Bytes.length - bD.head := rfl
  have hstrOffeq : strOff = bA.Offset + (l + 5) := by
    rw [← hoff, hODdef, hLD, hDhead, hOA]
    omega
  have hstrle : strOff ≤ bA.Bytes.length := by
    rw [← hoff, hODdef, hLD]
    omega
  -- the three byte-level facts at the CreateString result
  have hc1 : encodeGet 4 bD.Bytes bD.head = l := by
    obtain ⟨q1, q2, q3, q4, q5, q6, q7, q8, q9⟩ :=
      Place_spec bC (l : Int) UOffsetTFlags (by rw [hw4]; omega)
        (by rw [hLC]; omega)
    rw [← hbD] at q8
    rw [hw4] at q8
    rw [q8]
    have hmod : ((l : Int)) % ((2 : Int) ^ (8 * 4)) = (l : Int) := by
      refine Int.emod_eq_of_lt (by positivity) ?_
      have : ((2 : Int) ^ (8 * 4)) = (2 : Int) ^ 32 := by norm_num
      rw [this]
      exact_mod_cast hlen32
    rw [hmod, Int.toNat_natCast]
  have hDB : bD.Bytes = encodeWriteInt 4 bC.Bytes (bC.head - 4) (l : Int) := rfl
  have hc2 : ∀ j, j < l → bD.Bytes.getD (bD.head + 4 + j) 0 = s.getD j 0 := by
    intro j hj
    rw [hDB, encodeWriteInt,
      show bD.head + 4 + j = bC.head + j by omega,
      getD_encodeWrite_outside _ _ _ _ _ (Or.inr (by omega))]
    show (writeBytes bB.Bytes (bB.head - l) s).getD (bC.head + j) 0 = _
    rw [show bC.head + j = (bB.head - l) + j by omega]
    exact getD_writeBytes s bB.Bytes (bB.head - l) j hj (by rw [hLB]; omega)
  have hc3 : bD.Bytes.getD (bD.head + 4 + l) 0 = 0 := by
    rw [hDB, encodeWriteInt,
      show bD.head + 4 + l = bC.head + l by omega,
      getD_encodeWrite_outside _ _ _ _ _ (Or.inr (by omega))]
    show (writeBytes bB.Bytes (bB.head - l) s).getD (bC.head + l) 0 = _
    rw [show bC.head + l = bB.head by omega,
      getD_writeBytes_outside s _ _ _ (Or.inr (by omega))]
    show (encodeWrite 1 bA.Bytes (bA.head - 1) 0).getD bB.head 0 = 0
    rw [hBhead]
    show (bA.Bytes.set (bA.head - 1) (0 % 256)).getD (bA.head - 1) 0 = 0
    rw [getD_set_self _ _ _ (by omega)]
  have hb1Bytes : b1.Bytes = bD.Bytes := by rw [← hb1]
  have hb1head : b1.head = bD.head := by rw [← hb1]
  have hb1len : b1.Bytes.length = bA.Bytes.length := by rw [hb1Bytes, hLD]
  have hpos1 : b1.Bytes.length - strOff = bD.head := by
    rw [hb1len, hstrOffeq, hOA]
    omega
  refine ⟨by rw [hpos1, hb1Bytes]; exact hc1,
    fun j hj => by rw [hpos1, hb1Bytes]; exact hc2 j hj,
    by rw [hpos1, hb1Bytes]; exact hc3, ?_⟩
  -- the read-back through Table.String
  have hb1Off : b1.Offset = strOff := by rw [← hb1]; exact hoff
  have hb1wf : b1.head ≤ b1.Bytes.length := by
    rw [hb1head, hb1len]
    omega
  obtain ⟨u0, uOff, ucv, uoe, uvt, uwfle, uheadeq, ule, umax, uget, upres⟩ :=
    PrependUOffsetTRelative_ok _ _ _ hb1wf h2
  have halign : (bA.Offset + (l + 1)) % 4 = 0 := by
    have hpa := prepAlignSize_add_mod 4 (b.Offset + (l + 1)) (by omega)
    rw [pOff,
      show b.Offset + prepAlignSize 4 (b.Offset + (l + 1)) + (l + 1) =
        b.Offset + (l + 1) + prepAlignSize 4 (b.Offset + (l + 1)) by omega]
    exact hpa
  have hmod4 : strOff % 4 = 0 := by
    rw [hstrOffeq]
    omega
  have hal2 : prepAlignSize 4 strOff = 0 := prepAlignSize_of_mod_eq_zero 4 strOff hmod4
  rw [hb1Off, hal2] at uOff
  rw [hb1Off, hal2] at uget
  rw [hb1Off] at upres
  have hstored : encodeGet 4 b2.Bytes b2.head = 4 := by
    rw [uget]
    have hin : ((((strOff + 0 : Nat) : Int)) - (strOff : Int) + 4) % ((2 : Int) ^ 32) =
        4 := by
      push_cast
      norm_num
    rw [hin]
    rfl
  have hOffle2 : b2.Offset ≤ b2.Bytes.length := Nat.sub_le _ _
  have hb2head : b2.head + 4 = b2.Bytes.length - strOff := by
    omega
  have hstrle2 : strOff + 4 ≤ b2.Bytes.length := by
    omega
  have htrans : ∀ k, k ≤ strOff - 1 → b2.Bytes.getD (b2.Bytes.length - strOff + k) 0 =
      b1.Bytes.getD (b1.Bytes.length - strOff + k) 0 := by
    intro k hk
    have hp := upres (strOff - k) (by omega) (by omega)
    simp only [Builder.tailByte] at hp
    rw [show b2.Bytes.length - (strOff - k) = b2.Bytes.length - strOff + k by omega,
      show b1.Bytes.length - (strOff - k) = b1.Bytes.length - strOff + k by omega] at hp
    exact hp
  simp only [Table.String]
  rw [Nat.zero_add, Nat.zero_add, hstored, hw4]
  have hlenread : encodeGet 4 b2.Bytes (4 + b2.head) = l := by
    rw [show 4 + b2.head = b2.Bytes.length - strOff by omega]
    rw [encodeGet_congr 4 b2.Bytes b1.Bytes _ (b1.Bytes.length - strOff)
      (fun k hk => htrans k (by omega))]
    rw [hpos1, hb1Bytes]
    exact hc1
  rw [hlenread]
  refine List.ext_getElem ?_ ?_
  · rw [List.length_take, List.length_drop]
    omega
  · intro j hj1 hj2
    have hj : j < l := by
      rw [List.length_take, List.length_drop] at hj1
      omega
    rw [← getD_eq_getElem _ _ hj1, ← getD_eq_getElem _ _ hj2,
      getD_take _ _ _ hj, getD_drop]
    rw [show b2.head + 4 + 4 + j = b2.Bytes.length - strOff + (4 + j) by omega]
    rw [htrans (4 + j) (by omega)]
    rw [show b1.Bytes.length - strOff + (4 + j) = b1.Bytes.length - strOff + 4 + j by
      omega]
    rw [hpos1, hb1Bytes]
    exact hc2 j hj

theorem C3_create_string_roundtrip_witness :
    Table.String
      ⟨[0, 0, 0, 0, 0, 0, 0, 0, 0, 0, 0, 0, 0, 0, 0, 0, 4, 0, 0, 0, 5, 0, 0, 0,
        104, 101, 108, 108, 111, 0, 0, 0], 16⟩ 0 = [104, 101, 108, 108, 111] :=
  (C3_create_string_roundtrip ⟨List.replicate 32 0, none, 32, 1, none, []⟩
    ⟨[0, 0, 0, 0, 0, 0, 0, 0, 0, 0, 0, 0, 0, 0, 0, 0, 0, 0, 0, 0, 5, 0, 0, 0,
      104, 101, 108, 108, 111, 0, 0, 0], none, 20, 4, none, []⟩
    ⟨[0, 0, 0, 0, 0, 0, 0, 0, 0, 0, 0, 0, 0, 0, 0, 0, 4, 0, 0, 0, 5, 0, 0, 0,
      104, 101, 108, 108, 111, 0, 0, 0], none, 16, 4, none, []⟩
    [104, 101, 108, 108, 111] 12 (by decide) (by decide) (by decide) rfl rfl).2.2.2

/-! Claim C1: vtable deduplication. -/

/-- The reverse search stops at the first (most recently appended)
candidate whenever vtableEqual accepts it. -/
theorem findExistingVtable_cons_found (bytes cv : List Nat) (objectOffset v1 : Nat)
    (rest : List Nat)
    (h : vtableEqual cv objectOffset
      ((bytes.drop (bytes.length - v1 + VtableMetadataFields * VOffsetTFlags.bytewidth)).take
        (encodeGet 2 bytes (bytes.length - v1) -
          VtableMetadataFields * VOffsetTFlags.bytewidth)) = true) :
    findExistingVtable bytes cv objectOffset (v1 :: rest) = some v1 := by
  simp only [findExistingVtable]
  rw [if_pos h]

theorem readSOffset_congr (bs1 bs2 : List Nat) (i j : Nat)
    (h : encodeGet 4 bs1 i = encodeGet 4 bs2 j) :
    readSOffset bs1 i = readSOffset bs2 j := by
  rw [readSOffset, readSOffset, h]

/-- C1: when a second object whose slots match the shape of the first
object (same slot count, omitted slots zero in both, equal
objectOffset-minus-fieldOffset values elsewhere, as witnessed by the
shape hypothesis) is finished on a Builder whose newest stored vtable is
the vtable of the first object, the second EndObject finds that vtable by
the reverse linear search through vtableEqual, writes the SOffset
existingVtable - objectOffset into the second object header, and appends
nothing to vtables (so a fresh two-object builder ends with one stored
vtable); both object headers then resolve to the same vtable position. -/
theorem C1_vtable_dedup (b bp : Builder) (cv1 cv2 vts : List Nat) (v1 off1 : Nat)
    (hwf : b.head ≤ b.Bytes.length)
    (hL : b.Bytes.length < MAX_BUFFER_SIZE)
    (hcv : b.current_vtable = some cv2)
    (hvts : b.vtables = vts ++ [v1])
    (hprep : b.Prep 4 0 = Except.ok bp)
    (hv1len : (cv1.length + 2) * 2 ≤ v1)
    (hv1le : v1 ≤ b.Offset)
    (hvt1size : encodeGet 2 b.Bytes (b.Bytes.length - v1) = (cv1.length + 2) * 2)
    (hvt1fields : ∀ i, i < cv1.length →
      encodeGet 2 b.Bytes (b.Bytes.length - v1 + 4 + 2 * i) =
        (if cv1.getD i 0 = 0 then 0 else off1 - cv1.getD i 0))
    (hoff1lo : 4 ≤ off1) (hoff1hi : off1 ≤ b.Offset)
    (hhdr1 : readSOffset b.Bytes (b.Bytes.length - off1) = (v1 : Int) - (off1 : Int))
    (hlen : cv1.length = cv2.length)
    (hshape : ∀ i, i < cv1.length →
      (cv1.getD i 0 = 0 ∧ cv2.getD i 0 = 0) ∨
      (cv1.getD i 0 ≠ 0 ∧ cv2.getD i 0 ≠ 0 ∧ cv1.getD i 0 ≤ off1 ∧
        cv2.getD i 0 ≤ bp.Offset + 4 ∧
        off1 - cv1.getD i 0 = bp.Offset + 4 - cv2.getD i 0)) :
    ∃ b1 b2 : Builder,
      b.PrependSOffsetTRelative 0 = Except.ok b1 ∧
      b1.Offset = bp.Offset + 4 ∧
      findExistingVtable b1.Bytes cv2 b1.Offset (vts ++ [v1]).reverse = some v1 ∧
      b.EndObject = Except.ok (b2, b1.Offset) ∧
      b2.vtables = vts ++ [v1] ∧
      (vts = [] → b2.vtables.length = 1) ∧
      readSOffset b2.Bytes (b2.Bytes.length - b1.Offset) =
        (v1 : Int) - (b1.Offset : Int) ∧
      readSOffset b2.Bytes (b2.Bytes.length - off1) = (v1 : Int) - (off1 : Int) ∧
      ((b2.Bytes.length : Int) - (off1 : Int)) -
        readSOffset b2.Bytes (b2.Bytes.length - off1) =
        (b2.Bytes.length : Int) - (v1 : Int) ∧
      ((b2.Bytes.length : Int) - (b1.Offset : Int)) -
        readSOffset b2.Bytes (b2.Bytes.length - b1.Offset) =
        (b2.Bytes.length : Int) - (v1 : Int) := by
  obtain ⟨pcv, poe, pvt, pmin, pOff, ple, pwf, proom, pmax, ppres, _, _⟩ :=
    Prep_ok _ _ _ _ hwf hprep
  simp only [Nat.add_zero] at pOff
  have hOb : b.Offset ≤ b.Bytes.length := Nat.sub_le _ _
  have hw4 : SOffsetTFlags.bytewidth = 4 := rfl
  have hbw2 : VOffsetTFlags.bytewidth = 2 := rfl
  have hmeta : VtableMetadataFields * VOffsetTFlags.bytewidth = 4 := rfl
  have hM : MAX_BUFFER_SIZE = 2 ^ 31 := rfl
  have hpS : b.Prep SOffsetTFlags.bytewidth 0 = Except.ok bp := hprep
  set b1 : Builder :=
    bp.Place ((bp.Offset : Int) - 0 + (SOffsetTFlags.bytewidth : Int)) SOffsetTFlags
    with hb1def
  have hps : b.PrependSOffsetTRelative 0 = Except.ok b1 := by
    rw [Builder.PrependSOffsetTRelative, hpS]
    dsimp only
    rw [if_neg (by omega)]
  obtain ⟨q1, q2, q3, q4, q5, q6, q7, q8, q9⟩ :=
    Place_spec bp ((bp.Offset : Int) - 0 + (SOffsetTFlags.bytewidth : Int)) SOffsetTFlags
      (by rw [hw4]; omega) pwf
  rw [← hb1def] at q1 q2 q3 q4 q5 q6 q7 q8 q9
  have hb1off : b1.Offset = bp.Offset + 4 := by rw [q3, hw4]
  have hb1cv : b1.current_vtable = some cv2 := by rw [q4, pcv, hcv]
  have hb1vt : b1.vtables = vts ++ [v1] := by rw [q7, pvt, hvts]
  have hlen1 : b1.Bytes.length = bp.Bytes.length := q2
  have hLb1 : b1.Bytes.length < MAX_BUFFER_SIZE := by rw [hlen1]; exact pmax hL
  have hLeq : b.Bytes.length ≤ b1.Bytes.length := by omega
  have hOffb1 : b.Offset ≤ bp.Offset := by omega
  have htb : ∀ t, 1 ≤ t → t ≤ b.Offset →
      b1.Bytes.getD (b1.Bytes.length - t) 0 = b.Bytes.getD (b.Bytes.length - t) 0 := by
    intro t h1t h2t
    have h3 := q9 t h1t (by omega)
    have h4 := ppres t h1t (by omega)
    simp only [Builder.tailByte] at h3 h4
    exact h3.trans h4
  have hget : ∀ t w, w ≤ t → t ≤ b.Offset →
      encodeGet w b1.Bytes (b1.Bytes.length - t) =
        encodeGet w b.Bytes (b.Bytes.length - t) := by
    intro t w hwt htOff
    refine encodeGet_congr w _ _ _ _ ?_
    intro k hk
    rw [show b1.Bytes.length - t + k = b1.Bytes.length - (t - k) by omega,
      show b.Bytes.length - t + k = b.Bytes.length - (t - k) by omega]
    exact htb (t - k) (by omega) (by omega)
  have hn1pos : 4 ≤ v1 := by omega
  have hsize1 : encodeGet 2 b1.Bytes (b1.Bytes.length - v1) = (cv1.length + 2) * 2 := by
    rw [hget v1 2 (by omega) hv1le]
    exact hvt1size
  have hfield1 : ∀ i, i < cv1.length →
      encodeGet 2 b1.Bytes (b1.Bytes.length - (v1 - 4 - 2 * i)) =
        (if cv1.getD i 0 = 0 then 0 else off1 - cv1.getD i 0) := by
    intro i hi
    rw [hget (v1 - 4 - 2 * i) 2 (by omega) (by omega)]
    rw [show b.Bytes.length - (v1 - 4 - 2 * i) = b.Bytes.length - v1 + 4 + 2 * i by
      omega]
    exact hvt1fields i hi
  set vt2 : List Nat :=
    (b1.Bytes.drop
      (b1.Bytes.length - v1 + VtableMetadataFields * VOffsetTFlags.bytewidth)).take
      (encodeGet 2 b1.Bytes (b1.Bytes.length - v1) -
        VtableMetadataFields * VOffsetTFlags.bytewidth) with hvt2def
  have hv1L1 : v1 ≤ b1.Bytes.length := by omega
  have hvt2len : vt2.length = 2 * cv1.length := by
    rw [hvt2def, hsize1, hmeta, List.length_take, List.length_drop]
    omega
  have hvt2get : ∀ i, i < cv1.length →
      encodeGet 2 vt2 (i * VOffsetTFlags.bytewidth) =
        (if cv1.getD i 0 = 0 then 0 else off1 - cv1.getD i 0) := by
    intro i hi
    have hcongr : encodeGet 2 vt2 (i * VOffsetTFlags.bytewidth) =
        encodeGet 2 b1.Bytes (b1.Bytes.length - (v1 - 4 - 2 * i)) := by
      refine encodeGet_congr 2 _ _ _ _ ?_
      intro k hk
      rw [hvt2def, hsize1, hmeta, hbw2]
      rw [getD_take _ _ _ (by omega), getD_drop]
      rw [show b1.Bytes.length - v1 + 4 + (i * 2 + k) =
        b1.Bytes.length - (v1 - 4 - 2 * i) + k by omega]
    rw [hcongr]
    exact hfield1 i hi
  have hvteq : vtableEqual cv2 b1.Offset vt2 = true := by
    rw [vtableEqual]
    rw [if_neg (by rw [hvt2len, hbw2]; omega)]
    rw [List.all_eq_true]
    intro i hi
    have hiR : i < cv1.length := by rw [hlen]; exact List.mem_range.mp hi
    dsimp only
    rw [hvt2get i hiR]
    rcases hshape i hiR with ⟨hz1, hz2⟩ | ⟨hnz1, hnz2, hle1, hle2, heqd⟩
    · rw [if_pos hz1, if_pos ⟨rfl, hz2⟩]
    · rw [if_neg hnz1, if_neg (fun hcon => hnz2 hcon.2)]
      rw [decide_eq_true_eq, hb1off]
      omega
  have hrev : (vts ++ [v1]).reverse = v1 :: vts.reverse := by simp
  have hfind : findExistingVtable b1.Bytes cv2 b1.Offset (vts ++ [v1]).reverse =
      some v1 := by
    rw [hrev]
    refine findExistingVtable_cons_found _ _ _ _ _ ?_
    rw [← hvt2def]
    exact hvteq
  have hfind2 : findExistingVtable b1.Bytes cv2 b1.Offset b1.vtables.reverse =
      some v1 := by
    rw [hb1vt]
    exact hfind
  set b2e : Builder :=
    ⟨encodeWriteInt 4 b1.Bytes (b1.Bytes.length - b1.Offset)
        ((v1 : Int) - (b1.Offset : Int)),
      none, b1.Bytes.length - b1.Offset, b1.minalign, b1.objectEnd, b1.vtables⟩
    with hb2edef
  have hcvgetD : b1.current_vtable.getD [] = cv2 := by rw [hb1cv]; rfl
  have hWV : b.WriteVtable = Except.ok (b2e, b1.Offset) := by
    rw [Builder.WriteVtable, hps]
    dsimp only
    rw [hcvgetD, hfind2]
  have hnone : b.current_vtable.isNone = false := by rw [hcv]; rfl
  have hEnd : b.EndObject = Except.ok (b2e, b1.Offset) := by
    rw [Builder.EndObject, hnone, if_neg (by simp)]
    exact hWV
  have hlenb2 : b2e.Bytes.length = b1.Bytes.length := by
    show (encodeWriteInt 4 b1.Bytes (b1.Bytes.length - b1.Offset)
      ((v1 : Int) - (b1.Offset : Int))).length = _
    exact encodeWriteInt_length _ _ _ _
  have hoff2len : b1.Offset ≤ b1.Bytes.length := Nat.sub_le _ _
  have hread2 : readSOffset b2e.Bytes (b2e.Bytes.length - b1.Offset) =
      (v1 : Int) - (b1.Offset : Int) := by
    rw [hlenb2]
    show readSOffset (encodeWriteInt 4 b1.Bytes (b1.Bytes.length - b1.Offset)
      ((v1 : Int) - (b1.Offset : Int))) (b1.Bytes.length - b1.Offset) = _
    exact readSOffset_encodeWriteInt _ _ _ (by omega) (by omega) (by omega)
  have hread1 : readSOffset b2e.Bytes (b2e.Bytes.length - off1) =
      (v1 : Int) - (off1 : Int) := by
    rw [hlenb2]
    have hdis : encodeGet 4 (encodeWriteInt 4 b1.Bytes (b1.Bytes.length - b1.Offset)
        ((v1 : Int) - (b1.Offset : Int))) (b1.Bytes.length - off1) =
        encodeGet 4 b1.Bytes (b1.Bytes.length - off1) := by
      rw [encodeWriteInt]
      exact encodeGet_encodeWrite_disjoint 4 4 _ _ _ _ (Or.inr (by omega))
    have hchain : encodeGet 4 b1.Bytes (b1.Bytes.length - off1) =
        encodeGet 4 b.Bytes (b.Bytes.length - off1) :=
      hget off1 4 hoff1lo hoff1hi
    have := readSOffset_congr _ _ _ _ (hdis.trans hchain)
    exact this.trans hhdr1
  refine ⟨b1, b2e, hps, hb1off, hfind, hEnd, hb1vt, ?_, hread2, hread1, ?_, ?_⟩
  · intro hnil
    have : b2e.vtables = vts ++ [v1] := hb1vt
    rw [this, hnil]
    rfl
  · rw [hread1]
    have hv1len2 : v1 ≤ b2e.Bytes.length := by omega
    have hoff1len2 : off1 ≤ b2e.Bytes.length := by omega
    omega
  · rw [hread2]
    have hv1len2 : v1 ≤ b2e.Bytes.length := by omega
    omega

theorem C1_vtable_dedup_witness :
    Builder.EndObject
      ⟨[0, 0, 0, 0, 0, 0, 0, 0, 0, 0, 0, 0, 55, 0, 0, 0, 0, 0, 6, 0, 8, 0, 4, 0,
        6, 0, 0, 0, 55, 0, 0, 0], some [20], 12, 4, some 14, [14]⟩ =
      Except.ok
        (⟨[0, 0, 0, 0, 0, 0, 0, 0, 246, 255, 255, 255, 55, 0, 0, 0, 0, 0, 6, 0,
          8, 0, 4, 0, 6, 0, 0, 0, 55, 0, 0, 0], none, 8, 4, some 14, [14]⟩, 24) ∧
    ([14] : List Nat).length = 1 ∧
    readSOffset [0, 0, 0, 0, 0, 0, 0, 0, 246, 255, 255, 255, 55, 0, 0, 0, 0, 0,
      6, 0, 8, 0, 4, 0, 6, 0, 0, 0, 55, 0, 0, 0] 8 = (14 : Int) - 24 ∧
    readSOffset [0, 0, 0, 0, 0, 0, 0, 0, 246, 255, 255, 255, 55, 0, 0, 0, 0, 0,
      6, 0, 8, 0, 4, 0, 6, 0, 0, 0, 55, 0, 0, 0] 24 = (14 : Int) - 8 := by
  obtain ⟨b1, b2, hps, hoff, hfind, hend, hvt, hlen1, hr2, hr1, hres1, hres2⟩ :=
    C1_vtable_dedup
      ⟨[0, 0, 0, 0, 0, 0, 0, 0, 0, 0, 0, 0, 55, 0, 0, 0, 0, 0, 6, 0, 8, 0, 4, 0,
        6, 0, 0, 0, 55, 0, 0, 0], some [20], 12, 4, some 14, [14]⟩
      ⟨[0, 0, 0, 0, 0, 0, 0, 0, 0, 0, 0, 0, 55, 0, 0, 0, 0, 0, 6, 0, 8, 0, 4, 0,
        6, 0, 0, 0, 55, 0, 0, 0], some [20], 12, 4, some 14, [14]⟩
      [4] [20] [] 14 8 (by decide) (by decide) rfl rfl rfl (by decide) (by decide)
      (by decide) (by decide) (by decide) (by decide) (by decide) rfl (by decide)
  have h24 : b1.Offset = 24 := hoff.trans (by decide)
  rw [h24] at hend
  have hinj :
      (b2, (24 : Nat)) =
      ((⟨[0, 0, 0, 0, 0, 0, 0, 0, 246, 255, 255, 255, 55, 0, 0, 0, 0, 0, 6, 0,
        8, 0, 4, 0, 6, 0, 0, 0, 55, 0, 0, 0], none, 8, 4, some 14, [14]⟩ : Builder),
        (24 : Nat)) :=
    Except.ok.inj (hend.symm.trans rfl)
  have hb2 :
      b2 = ⟨[0, 0, 0, 0, 0, 0, 0, 0, 246, 255, 255, 255, 55, 0, 0, 0, 0, 0, 6, 0,
        8, 0, 4, 0, 6, 0, 0, 0, 55, 0, 0, 0], none, 8, 4, some 14, [14]⟩ :=
    congrArg Prod.fst hinj
  rw [hb2] at hend
  rw [h24, hb2] at hr2
  rw [hb2] at hr1
  exact ⟨hend, rfl, hr2, hr1⟩

end FlatBuffers
